import Mathlib

/-!
The inotify back-end of fsnotify: a shallow embedding and its verified properties.

Sources embedded: `src/fsnotify/inotify.go` (Watcher, readEvents, newEvent,
ignoreLinux) and `src/fsnotify/inotify_poller.go` (fdPoller).

Conventions.
* A Go `string` is its sequence of bytes (`GoString`).
* `uint32` values are naturals; arithmetic that can overflow is reduced
  modulo `2 ^ 32` explicitly.
* Results of system calls, of channel `select`s and of the filesystem probe are
  inputs of the functions that consume them.
* Reads through the unsafe pointers of `readEvents` are not checked against the
  length of `buf`; the memory that lies behind the array is part of the input.
* The source spells a few identifiers that name nothing (`maks`,
  `unix.IN_MOVE_FROM`, `unit32`, `w.mu.Unloc`, `poller.Pipe`, `unxi`); they are
  read as `mask`, `unix.IN_MOVED_FROM`, `uint32`, `w.mu.Unlock`, `poller.pipe`
  and `unix`.
-/

namespace Fsnotify

/-! ## Constants of `golang.org/x/sys/unix` (linux) -/

def IN_MODIFY : Nat := 0x2
def IN_ATTRIB : Nat := 0x4
def IN_MOVED_FROM : Nat := 0x40
def IN_MOVED_TO : Nat := 0x80
def IN_CREATE : Nat := 0x100
def IN_DELETE : Nat := 0x200
def IN_DELETE_SELF : Nat := 0x400
def IN_MOVE_SELF : Nat := 0x800
def IN_Q_OVERFLOW : Nat := 0x4000
def IN_IGNORED : Nat := 0x8000
def IN_MASK_ADD : Nat := 0x20000000
def IN_CLOEXEC : Nat := 0x80000
def SizeofInotifyEvent : Nat := 0x10
def PathMax : Nat := 0x1000
def EINTR : Nat := 4
def EAGAIN : Nat := 11

/-- Go `string`, as its bytes. -/
abbrev GoString := List Nat

/-- Go `error` values that occur in the package. `none : Option GoError` is `nil`. -/
inductive GoError where
  | errno (code : Nat)
  | msg (text : String)
  | eof
  /-- The value `ErrEventOverflow`. -/
  | eventOverflow
  /-- The value of `fmt.Errorf` in `Remove` for a path without a watch. -/
  | removeNonExistent (name : GoString)
deriving DecidableEq, Repr

/-- Test `m & f == f`, the form every flag test of the source has. -/
def hasFlag (m f : Nat) : Prop := m &&& f = f

instance (m f : Nat) : Decidable (hasFlag m f) := by
  unfold hasFlag; exact inferInstance

/-! ## Events -/

/-- Modelled from the spec: the `Op` constants `Create`, `Write`, `Remove`,
`Rename`, `Chmod` are declared in a file of the package that is not among the
sources. The spec describes `op` as a bitset over these five kinds, so each
constant is a single bit; the bit positions are the parameter. -/
structure OpBits where
  create : Nat
  write : Nat
  remove : Nat
  rename : Nat
  chmod : Nat
deriving DecidableEq, Repr

namespace OpBits

def Create (b : OpBits) : Nat := 2 ^ b.create
def Write (b : OpBits) : Nat := 2 ^ b.write
def Remove (b : OpBits) : Nat := 2 ^ b.remove
def Rename (b : OpBits) : Nat := 2 ^ b.rename
def Chmod (b : OpBits) : Nat := 2 ^ b.chmod

/-- The five constants are five different bits. -/
def Distinct (b : OpBits) : Prop :=
  [b.create, b.write, b.remove, b.rename, b.chmod].Nodup

instance (b : OpBits) : Decidable b.Distinct := by
  unfold Distinct; exact inferInstance

/-- The usual numbering `1 << iota` in the order the spec lists the kinds. -/
def std : OpBits := { create := 0, write := 1, remove := 2, rename := 3, chmod := 4 }

end OpBits

structure Event where
  Name : GoString
  Op : Nat
deriving DecidableEq, Repr

/-- Source `newEvent` (inotify.go 252-277). -/
def newEvent (b : OpBits) (name : GoString) (mask : Nat) : Event :=
  let e : Event := { Name := name, Op := 0 }
  let e : Event :=
    if mask &&& IN_CREATE = IN_CREATE ∨ mask &&& IN_MOVED_TO = IN_MOVED_TO then
      { e with Op := e.Op ||| b.Create }
    else e
  let e : Event :=
    if mask &&& IN_DELETE_SELF = IN_DELETE_SELF ∨ mask &&& IN_DELETE = IN_DELETE then
      { e with Op := e.Op ||| b.Remove }
    else e
  let e : Event :=
    if mask &&& IN_MODIFY = IN_MODIFY then { e with Op := e.Op ||| b.Write } else e
  let e : Event :=
    if mask &&& IN_MOVE_SELF = IN_MOVE_SELF ∨ mask &&& IN_MOVED_FROM = IN_MOVED_FROM then
      { e with Op := e.Op ||| b.Rename }
    else e
  let e : Event :=
    if mask &&& IN_ATTRIB = IN_ATTRIB then { e with Op := e.Op ||| b.Chmod } else e
  e

/-- Source `Event.ignoreLinux` (inotify.go 240-250). `notExist name` is the
outcome of `os.IsNotExist` on the error of `os.Lstat(name)`. The second
component lists the paths that were probed with `os.Lstat`. -/
def Event.ignoreLinux (b : OpBits) (notExist : GoString → Bool) (e : Event) (mask : Nat) :
    Bool × List GoString :=
  if mask &&& IN_IGNORED = IN_IGNORED then (true, [])
  else if ¬ (e.Op &&& b.Remove = b.Remove ∨ e.Op &&& b.Rename = b.Rename) then
    (notExist e.Name, [e.Name])
  else (false, [])

/-! ## Go maps -/

section GoMap
variable {κ : Type} {α : Type} [DecidableEq κ]

/-- Go `m[k]` with the comma-ok result: `none` when the key is absent. -/
def mapGet (m : List (κ × α)) (k : κ) : Option α :=
  match m with
  | [] => none
  | (k1, v) :: rest => if k1 = k then some v else mapGet rest k

/-- Go `delete(m, k)`. -/
def mapDelete (m : List (κ × α)) (k : κ) : List (κ × α) :=
  m.filter (fun p => decide (p.1 ≠ k))

/-- Go `m[k] = v`. -/
def mapSet (m : List (κ × α)) (k : κ) (v : α) : List (κ × α) :=
  (k, v) :: mapDelete m k

end GoMap

/-! ## Observable actions -/

/-- What the code does to its environment, in program order. -/
inductive Effect where
  | inotifyAddWatch (fd : Int) (name : GoString) (flags : Nat)
  | inotifyRmWatch (fd : Int) (wd : Nat)
  | epollCreate1
  | pipe2
  | epollCtlAdd (epfd : Int) (fd : Int)
  | close (fd : Int)
  | pollerWake
  | pollerWait
  | read (fd : Int)
  | lstat (name : GoString)
  | sendError (e : Option GoError)
  | sendEvent (e : Event)
  | closeEvents
  | closeErrors
  | closeDoneResp
deriving DecidableEq, Repr

/-- Go conversion `uint32(x)` of an `int`. -/
def toUint32 (x : Int) : Nat := (x % 4294967296).toNat

/-- Go conversion of the four bytes of an `int32` field, read as unsigned, to `int`. -/
def toInt32 (u : Nat) : Int := if u < 2147483648 then (u : Int) else (u : Int) - 4294967296

/-! ## The poller (inotify_poller.go) -/

structure fdPoller where
  fd : Int
  epfd : Int
  pipe0 : Int
  pipe1 : Int
deriving DecidableEq, Repr

/-- Source `emptyPoller` (inotify_poller.go 13-20). -/
def emptyPoller (fd : Int) : fdPoller :=
  { fd := fd, epfd := -1, pipe0 := -1, pipe1 := -1 }

/-- Source `fdPoller.close` (inotify_poller.go 144-154): the `unix.Close` calls it makes. -/
def fdPoller.close (poller : fdPoller) : List Effect :=
  (if poller.pipe1 = -1 then [Effect.close poller.pipe1] else []) ++
  (if poller.pipe0 = -1 then [Effect.close poller.pipe0] else []) ++
  (if poller.epfd ≠ -1 then [Effect.close poller.epfd] else [])

/-- Descriptors closed by a sequence of actions. -/
def closedFds (tr : List Effect) : List Int :=
  tr.filterMap (fun a => match a with
    | Effect.close fd => some fd
    | _ => none)

/-- The open-descriptor set after a sequence of actions. -/
def openAfter (openFds : List Int) (tr : List Effect) : List Int :=
  openFds.filter (fun fd => decide (fd ∉ closedFds tr))

/-- Results of the four system calls of `newFdPoller`, as Go sees them. -/
structure PollerEnv where
  /-- Result of `unix.EpollCreate1(0)`. -/
  epollCreate1 : Int × Option GoError
  /-- Error result of `unix.Pipe2`. -/
  pipe2 : Option GoError
  /-- Contents of `poller.pipe` after `unix.Pipe2` returned. -/
  pipeFds : Int × Int
  /-- Result of `EpollCtl(epfd, EPOLL_CTL_ADD, poller.fd, ..)`. -/
  epollCtlFd : Option GoError
  /-- Result of `EpollCtl(epfd, EPOLL_CTL_ADD, poller.pipe[0], ..)`. -/
  epollCtlPipe : Option GoError
deriving DecidableEq, Repr

/-- The deferred function of `newFdPoller`: `if errno != nil { poller.close() }`. -/
def newFdPollerDeferred (errno : Option GoError) (poller : fdPoller) : List Effect :=
  if errno ≠ none then poller.close else []

/-- Source `newFdPoller` (inotify_poller.go 22-59): returned poller, returned
error, actions. -/
def newFdPoller (env : PollerEnv) (fd : Int) : Option fdPoller × Option GoError × List Effect :=
  let poller := emptyPoller fd
  let poller := { poller with fd := fd }
  let poller := { poller with epfd := env.epollCreate1.1 }
  let errno := env.epollCreate1.2
  let tr := [Effect.epollCreate1]
  if poller.epfd = -1 then
    (none, errno, tr ++ newFdPollerDeferred errno poller)
  else
    let poller := { poller with pipe0 := env.pipeFds.1, pipe1 := env.pipeFds.2 }
    let errno := env.pipe2
    let tr := tr ++ [Effect.pipe2]
    if errno ≠ none then
      (none, errno, tr ++ newFdPollerDeferred errno poller)
    else
      -- the error of this call is assigned to errno and overwritten by the next
      -- call before any test: env.epollCtlFd does not reach the result
      let tr := tr ++ [Effect.epollCtlAdd poller.epfd poller.fd]
      let tr := tr ++ [Effect.epollCtlAdd poller.epfd poller.pipe0]
      let errno := env.epollCtlPipe
      if errno ≠ none then
        (none, errno, tr ++ newFdPollerDeferred errno poller)
      else
        (some poller, none, tr ++ newFdPollerDeferred errno poller)

/-- A setup step failed: the call reported an error (for `EpollCreate1`, also
when it returned descriptor `-1`). -/
def PollerEnv.stepFailed (env : PollerEnv) : Prop :=
  env.epollCreate1.1 = -1 ∨ env.epollCreate1.2 ≠ none ∨ env.pipe2 ≠ none ∨
    env.epollCtlFd ≠ none ∨ env.epollCtlPipe ≠ none

instance (env : PollerEnv) : Decidable env.stepFailed := by
  unfold PollerEnv.stepFailed; exact inferInstance

/-! ## The watcher (inotify.go) -/

structure watch where
  wd : Nat
  flags : Nat
deriving DecidableEq, Repr

/-- Source `Watcher`. `done` is `true` once the channel `done` is closed; the
channels `Events`, `Errors`, `doneResp` appear through the actions on them. -/
structure Watcher where
  fd : Int
  poller : fdPoller
  watches : List (GoString × watch)
  paths : List (Int × GoString)
  done : Bool
deriving DecidableEq, Repr

/-- Results of the system calls of `NewWatcher`. -/
structure WatcherEnv where
  inotifyInit1 : Int × Option GoError
  poller : PollerEnv
deriving DecidableEq, Repr

/-- Source `NewWatcher` (inotify.go 28-53). The worker it starts is `readEvents`.
A nil poller returned with a nil error (only if `EpollCreate1` gave `-1` without
an error) yields no watcher here. -/
def NewWatcher (env : WatcherEnv) : Option Watcher × Option GoError × List Effect :=
  let fd := env.inotifyInit1.1
  let errno := env.inotifyInit1.2
  if fd = -1 then (none, errno, [])
  else
    match newFdPoller env.poller fd with
    | (_, some err, tr) => (none, some err, tr ++ [Effect.close fd])
    | (poller, none, tr) =>
      (poller.map (fun p =>
        { fd := fd, poller := p, watches := [], paths := [], done := false }), none, tr)

/-- Source `Watcher.isClosed` (inotify.go 55-62). -/
def Watcher.isClosed (w : Watcher) : Bool := w.done

/-- Source `Watcher.Close` (inotify.go 64-74), up to the wait for `doneResp`. -/
def Watcher.Close (w : Watcher) : Watcher × List Effect :=
  if w.isClosed then (w, [])
  else ({ w with done := true }, [Effect.pollerWake])

/-- The constant `agnosticEvents` of `Watcher.Add`. -/
def agnosticEvents : Nat :=
  IN_MOVED_TO ||| IN_MOVED_FROM ||| IN_CREATE ||| IN_ATTRIB ||| IN_MODIFY |||
    IN_MOVE_SELF ||| IN_DELETE ||| IN_DELETE_SELF

/-- Source `Watcher.Add` (inotify.go 76-108). `clean` is `filepath.Clean`;
`kernel` is the result `(wd, errno)` of `unix.InotifyAddWatch`, used if the call
is made. Result: new state, returned error, actions. -/
def Watcher.Add (clean : GoString → GoString) (w : Watcher) (name : GoString)
    (kernel : Int × Option GoError) : Watcher × Option GoError × List Effect :=
  let name := clean name
  if w.isClosed then
    (w, some (GoError.msg "inotify instacne already closed"), [])
  else
    let flags := agnosticEvents
    let watchEntry := mapGet w.watches name
    let flags :=
      match watchEntry with
      | some e => flags ||| (e.flags ||| IN_MASK_ADD)
      | none => flags
    let wd := kernel.1
    let errno := kernel.2
    let tr := [Effect.inotifyAddWatch w.fd name flags]
    if wd = -1 then (w, errno, tr)
    else
      match watchEntry with
      | none =>
        ({ w with watches := mapSet w.watches name { wd := toUint32 wd, flags := flags } },
          none, tr)
      | some e =>
        let e := { e with wd := toUint32 wd }
        let e := { e with flags := flags }
        ({ w with watches := mapSet w.watches name e }, none, tr)

/-- Source `Watcher.Remove` (inotify.go 110-130). `kernel` is the result
`(success, errno)` of `unix.InotifyRmWatch`. -/
def Watcher.Remove (clean : GoString → GoString) (w : Watcher) (name : GoString)
    (kernel : Int × Option GoError) : Watcher × Option GoError × List Effect :=
  let name := clean name
  match mapGet w.watches name with
  | none => (w, some (GoError.removeNonExistent name), [])
  | some watch =>
    let w := { w with paths := mapDelete w.paths (watch.wd : Int) }
    let w := { w with watches := mapDelete w.watches name }
    let success := kernel.1
    let errno := kernel.2
    let tr := [Effect.inotifyRmWatch w.fd watch.wd]
    if success = -1 then (w, errno, tr) else (w, none, tr)

/-! ## The worker `readEvents` (inotify.go 137-238) -/

/-- Length of the array `buf` of `readEvents`. -/
def bufLen : Nat := SizeofInotifyEvent * 4096

/-- The byte at distance `i` from `&buf[0]`. `mem` lists the memory from
`&buf[0]` on: the `bufLen` bytes of the array and then the bytes that lie
behind it; positions past the end of the list hold zero. -/
def byteOf (mem : List Nat) (i : Nat) : Nat := mem.getD i 0 % 256

/-- A little-endian 32-bit field read through the `*unix.InotifyEvent` pointer at
distance `i` from `&buf[0]`. The pointer is unsafe: the read is not checked
against the length of `buf`. -/
def le32At (mem : List Nat) (i : Nat) : Nat :=
  byteOf mem i + 256 * byteOf mem (i + 1) + 65536 * byteOf mem (i + 2)
    + 16777216 * byteOf mem (i + 3)

/-- The bytes `bytes[0:len]` seen through the `*[unix.PathMax]byte` pointer at
distance `base` from `&buf[0]`. The pointer is unsafe: the read is not checked
against the length of `buf`. -/
def window (mem : List Nat) (base len : Nat) : List Nat :=
  (List.range len).map (fun j => byteOf mem (base + j))

/-- Go `strings.TrimRight(s, "\000")`. -/
def trimRightNul (s : GoString) : GoString :=
  (s.reverse.dropWhile (fun c => c == 0)).reverse

/-- Outcome of a `select` between a channel send and `<-w.done`. -/
inductive Sel where
  | sent
  | done
deriving DecidableEq, Repr

/-- Ways the loop body can stop the worker other than by a return. -/
inductive Crash where
  /-- Go run-time panic: index out of range on `buf[..]`. -/
  | indexOutOfRange
  /-- Go run-time panic: slice bounds out of range on `bytes[0:nameLen]`. -/
  | sliceBounds
  /-- The iteration bound of the record loop is used up (shown not to happen). -/
  | fuel
deriving DecidableEq, Repr

/-- How a piece of the worker ends. -/
inductive Ctl where
  /-- Go on with the next iteration of the outer `for`. -/
  | next
  /-- The function `readEvents` returns. -/
  | ret
  | crash (c : Crash)
deriving DecidableEq, Repr

/-- What the worker observes during one iteration of its outer loop. -/
structure IterEnv where
  /-- Result of `w.isClosed()` at the top of the loop. -/
  closedTop : Bool
  /-- Result `(ok, errno)` of `w.poller.wait()`. -/
  wait : Bool × Option GoError
  /-- Outcome of the `select` that reports an error of `wait`. -/
  selWait : Sel
  /-- Result `(n, errno)` of `unix.Read(w.fd, buf[:])`. -/
  read : Int × Option GoError
  /-- The memory from `&buf[0]` on after the read: the contents of `buf`, and
  behind them the bytes that follow the array in memory. -/
  buf : List Nat
  /-- Result of `w.isClosed()` after the read. -/
  closedAfterRead : Bool
  /-- Outcome of the `select` that reports a short read. -/
  selShort : Sel
  /-- Outcome of the `select` that reports an overflow, for the record at an offset. -/
  selOverflow : Nat → Sel
  /-- Outcome of the `select` that delivers the event of the record at an offset. -/
  selEvent : Nat → Sel
  /-- Filesystem probe: `os.IsNotExist` of the error of `os.Lstat`. -/
  notExist : GoString → Bool

/-- One record as the loop body decodes it. -/
structure Visit where
  offset : Nat
  wd : Int
  mask : Nat
  nameLen : Nat
  /-- The name bytes after `TrimRight`; empty when `nameLen = 0`. -/
  name : GoString
deriving DecidableEq, Repr

/-- Result of one pass through the body of the record loop. -/
structure StepOut where
  w : Watcher
  trace : List Effect
  visit : Option Visit
  /-- The offset for the next pass, or how the loop is left. -/
  next : Except Ctl Nat

/-- The overflow report (inotify.go 202-208) for the record at `offset`: the
actions, and whether `readEvents` returns. -/
def reportOverflow (env : IterEnv) (offset mask : Nat) : List Effect × Bool :=
  if mask &&& IN_Q_OVERFLOW ≠ 0 then
    match env.selOverflow offset with
    | .sent => ([Effect.sendError (some GoError.eventOverflow)], false)
    | .done => ([], true)
  else ([], false)

/-- The lookup of the handle and the retirement of a self-deleted watch
(inotify.go 210-216): the new state and the value of `name`. -/
def resolveHandle (w : Watcher) (wd : Int) (mask : Nat) : Watcher × GoString :=
  let found := mapGet w.paths wd
  let name : GoString := found.getD []
  if found.isSome ∧ mask &&& IN_DELETE_SELF = IN_DELETE_SELF then
    let w := { w with paths := mapDelete w.paths wd }
    ({ w with watches := mapDelete w.watches name }, name)
  else (w, name)

/-- The name of the record (inotify.go 218-221): the value of `name` after the
`if`, and the trimmed bytes that were appended (empty when `nameLen = 0`). -/
def appendName (env : IterEnv) (offset nameLen : Nat) (name : GoString) :
    Except Crash (GoString × GoString) :=
  if nameLen > 0 then
    -- &buf[offset+unix.SizeofInotifyEvent], the index computed in uint32
    if ¬ (offset + SizeofInotifyEvent) % 4294967296 < bufLen then
      .error .indexOutOfRange
    -- bytes[0:nameLen] on a *[unix.PathMax]byte
    else if ¬ nameLen ≤ PathMax then .error .sliceBounds
    else
      let bytes := window env.buf ((offset + SizeofInotifyEvent) % 4294967296) nameLen
      .ok (name ++ [47] ++ trimRightNul bytes, trimRightNul bytes)
  else .ok (name, [])

/-- Building and delivering the event, and the advance of `offset`
(inotify.go 223-233). `tr` holds the actions of the body so far. -/
def deliver (b : OpBits) (env : IterEnv) (w : Watcher) (tr : List Effect) (visit : Visit)
    (name : GoString) : StepOut :=
  let event := newEvent b name visit.mask
  let ign := event.ignoreLinux b env.notExist visit.mask
  let tr := tr ++ ign.2.map Effect.lstat
  let offset1 := (visit.offset + (SizeofInotifyEvent + visit.nameLen)) % 4294967296
  if ¬ ign.1 then
    match env.selEvent visit.offset with
    | .sent => ⟨w, tr ++ [Effect.sendEvent event], some visit, .ok offset1⟩
    | .done => ⟨w, tr, some visit, .error .ret⟩
  else ⟨w, tr, some visit, .ok offset1⟩

/-- The body of the record loop (inotify.go 198-233) at `offset`. The header is
read through a `*unix.InotifyEvent` at `&buf[offset]`: `Wd` at byte 0, `Mask` at
byte 4, `Cookie` at byte 8, `Len` at byte 12, little-endian. -/
def recordStep (b : OpBits) (env : IterEnv) (w : Watcher) (offset : Nat) : StepOut :=
  if ¬ offset < bufLen then ⟨w, [], none, .error (.crash .indexOutOfRange)⟩
  else
    let rawWd := le32At env.buf offset
    let mask := le32At env.buf (offset + 4)
    let nameLen := le32At env.buf (offset + 12)
    let overflow := reportOverflow env offset mask
    if overflow.2 then ⟨w, overflow.1, none, .error .ret⟩
    else
      let wd : Int := toInt32 rawWd
      let resolved := resolveHandle w wd mask
      match appendName env offset nameLen resolved.2 with
      | .error c => ⟨resolved.1, overflow.1, none, .error (.crash c)⟩
      | .ok (name, tail) =>
        deliver b env resolved.1 overflow.1
          { offset := offset, wd := wd, mask := mask, nameLen := nameLen, name := tail } name

/-- Result of a stretch of the worker. -/
structure LoopOut where
  w : Watcher
  trace : List Effect
  visits : List Visit
  ctl : Ctl
  /-- Value of `offset` when the record loop was left (`0` if it was not entered). -/
  offset : Nat
deriving DecidableEq, Repr

/-- The record loop `for offset <= uint32(n-unix.SizeofInotifyEvent)` (inotify.go
197-234), at most `fuel` passes. -/
def recordLoop (b : OpBits) (env : IterEnv) (n : Int) :
    Nat → Watcher → Nat → LoopOut
  | 0, w, offset =>
    if offset ≤ toUint32 (n - SizeofInotifyEvent) then ⟨w, [], [], .crash .fuel, offset⟩
    else ⟨w, [], [], .next, offset⟩
  | fuel + 1, w, offset =>
    if offset ≤ toUint32 (n - SizeofInotifyEvent) then
      let s := recordStep b env w offset
      match s.next with
      | .error c => ⟨s.w, s.trace, s.visit.toList, c, offset⟩
      | .ok offset1 =>
        let r := recordLoop b env n fuel s.w offset1
        ⟨r.w, s.trace ++ r.trace, s.visit.toList ++ r.visits, r.ctl, r.offset⟩
    else ⟨w, [], [], .next, offset⟩

/-- One iteration of the outer `for` of `readEvents` (inotify.go 150-236). -/
def iteration (b : OpBits) (env : IterEnv) (w : Watcher) : LoopOut :=
  if env.closedTop then ⟨w, [], [], .ret, 0⟩
  else
    let tr := [Effect.pollerWait]
    if env.wait.2 ≠ none then
      match env.selWait with
      | .sent => ⟨w, tr ++ [Effect.sendError env.wait.2], [], .next, 0⟩
      | .done => ⟨w, tr, [], .ret, 0⟩
    else if ¬ env.wait.1 then ⟨w, tr, [], .next, 0⟩
    else
      let n := env.read.1
      let errno := env.read.2
      let tr := tr ++ [Effect.read w.fd]
      if errno = some (GoError.errno EINTR) then ⟨w, tr, [], .next, 0⟩
      else if env.closedAfterRead then ⟨w, tr, [], .ret, 0⟩
      else if n < SizeofInotifyEvent then
        let err : Option GoError :=
          if n = 0 then some GoError.eof
          else if n < 0 then errno
          else some (GoError.msg "notify: short read in readEvents()")
        match env.selShort with
        | .sent => ⟨w, tr ++ [Effect.sendError err], [], .next, 0⟩
        | .done => ⟨w, tr, [], .ret, 0⟩
      else
        let r := recordLoop b env n n.toNat w 0
        ⟨r.w, tr ++ r.trace, r.visits, r.ctl, r.offset⟩

/-- The deferred calls of `readEvents`, in the order they run. -/
def teardown (w : Watcher) : List Effect :=
  w.poller.close ++ [Effect.closeEvents, Effect.closeErrors, Effect.closeDoneResp]

/-- State of the worker after some iterations. -/
inductive WorkerStatus where
  /-- Still inside the outer loop. -/
  | running
  /-- `readEvents` returned and its deferred calls ran. -/
  | exited
  /-- The loop body panicked; the deferred calls ran while the panic unwound. -/
  | crashed (c : Crash)
deriving DecidableEq, Repr

/-- Source `readEvents`, run for the iterations whose observations are `envs`. -/
def readEvents (b : OpBits) : List IterEnv → Watcher → Watcher × List Effect × WorkerStatus
  | [], w => (w, [], .running)
  | env :: rest, w =>
    let r := iteration b env w
    match r.ctl with
    | .next =>
      let p := readEvents b rest r.w
      (p.1, r.trace ++ p.2.1, p.2.2)
    | .ret => (r.w, r.trace ++ teardown r.w, .exited)
    | .crash c => (r.w, r.trace ++ teardown r.w, .crashed c)

/-! ## Well-formed raw records -/

/-- Little-endian encoding of a 32-bit value. -/
def le32 (x : Nat) : List Nat :=
  [x % 256, x / 256 % 256, x / 65536 % 256, x / 16777216 % 256]

/-- A raw record as the kernel writes it: header fields, the name, and the
number of NUL bytes that pad the name. -/
structure RawRecord where
  wd : Int
  mask : Nat
  cookie : Nat
  name : GoString
  pad : Nat
deriving DecidableEq, Repr

namespace RawRecord

/-- The name-length field of the header. -/
def len (r : RawRecord) : Nat := r.name.length + r.pad

/-- The bytes of the record: 16-byte header, then `len` bytes of padded name. -/
def encode (r : RawRecord) : List Nat :=
  le32 (toUint32 r.wd) ++ le32 r.mask ++ le32 r.cookie ++ le32 r.len ++
    (r.name ++ List.replicate r.pad 0)

/-- Header fields in range, name made of non-NUL bytes, name length at most `PathMax`. -/
def WellFormed (r : RawRecord) : Prop :=
  -2147483648 ≤ r.wd ∧ r.wd < 2147483648 ∧ r.mask < 4294967296 ∧ r.cookie < 4294967296 ∧
    (∀ c ∈ r.name, 0 < c ∧ c < 256) ∧ r.len ≤ PathMax

instance (r : RawRecord) : Decidable r.WellFormed := by
  unfold WellFormed; exact inferInstance

end RawRecord

/-- The records laid out one after the other. -/
def encodeAll (rs : List RawRecord) : List Nat := (rs.map RawRecord.encode).flatten

/-- The visits the records call for, the first record at `offset`. -/
def expectedVisits : Nat → List RawRecord → List Visit
  | _, [] => []
  | offset, r :: rs =>
    { offset := offset, wd := r.wd, mask := r.mask, nameLen := r.len, name := r.name } ::
      expectedVisits (offset + (SizeofInotifyEvent + r.len)) rs

/-! ## Concrete inputs used below -/

/-- All four setup calls of the poller succeed. -/
def pollerEnvOk : PollerEnv :=
  { epollCreate1 := (4, none), pipe2 := none, pipeFds := (5, 6),
    epollCtlFd := none, epollCtlPipe := none }

/-- Registering the notification descriptor fails with `EBADF`; the other three
setup calls succeed. -/
def pollerEnvCtlFails : PollerEnv :=
  { pollerEnvOk with epollCtlFd := some (GoError.errno 9) }

/-- A run of `NewWatcher` in which every call succeeds; inotify descriptor `3`. -/
def watcherEnvOk : WatcherEnv := { inotifyInit1 := (3, none), poller := pollerEnvOk }

/-- The watcher `NewWatcher` returns under `watcherEnvOk`. -/
def freshWatcher : Watcher :=
  { fd := 3, poller := { fd := 3, epfd := 4, pipe0 := 5, pipe1 := 6 },
    watches := [], paths := [], done := false }

/-- A sequential step on the watch maps: a call of `Add` or `Remove` with the
kernel result it gets, or one pass of the worker through the record at an offset. -/
inductive Call where
  | add (name : GoString) (kernel : Int × Option GoError)
  | remove (name : GoString) (kernel : Int × Option GoError)
  | record (env : IterEnv) (offset : Nat)

/-- The state after a step. -/
def Call.apply (clean : GoString → GoString) (b : OpBits) (w : Watcher) : Call → Watcher
  | .add name kernel => (w.Add clean name kernel).1
  | .remove name kernel => (w.Remove clean name kernel).1
  | .record env offset => (recordStep b env w offset).w

/-- The state after a sequence of steps. -/
def runCalls (clean : GoString → GoString) (b : OpBits) (w : Watcher) (cs : List Call) :
    Watcher :=
  cs.foldl (Call.apply clean b) w

/-- The fresh watcher after `Add("a")` for which the kernel returned handle `1`. -/
def watchedOnce : Watcher := (freshWatcher.Add id [97] (1, none)).1

/-- The watcher `watchedOnce` after `Close()`. -/
def watchedThenClosed : Watcher := watchedOnce.Close.1

/-- An iteration in which nothing is shut down, the poller reports the
descriptor ready, and the read fails with `-1` and `EBADF`. -/
def fatalReadEnv : IterEnv where
  closedTop := false
  wait := (true, none)
  selWait := Sel.sent
  read := (-1, some (GoError.errno 9))
  buf := []
  closedAfterRead := false
  selShort := Sel.sent
  selOverflow := fun _ => Sel.sent
  selEvent := fun _ => Sel.sent
  notExist := fun _ => false

/-- Two well-formed records: a write to `ab` under handle `1`, its name padded
with six NUL bytes, and the self-deletion of handle `2`, without a name. -/
def sampleRecords : List RawRecord :=
  [{ wd := 1, mask := IN_MODIFY, cookie := 0, name := [97, 98], pad := 6 },
   { wd := 2, mask := IN_DELETE_SELF, cookie := 0, name := [], pad := 0 }]

/-- An iteration that reads the 40 bytes of `sampleRecords`; three stale bytes
follow them in the buffer. -/
def sampleEnv : IterEnv where
  closedTop := false
  wait := (true, none)
  selWait := Sel.sent
  read := (40, none)
  buf := encodeAll sampleRecords ++ [9, 9, 9]
  closedAfterRead := false
  selShort := Sel.sent
  selOverflow := fun _ => Sel.sent
  selEvent := fun _ => Sel.sent
  notExist := fun _ => false

/-- An iteration that reads 16 bytes: one header that declares a name of four
bytes. The four bytes after the header are left over from an earlier read. -/
def overrunEnv : IterEnv where
  closedTop := false
  wait := (true, none)
  selWait := Sel.sent
  read := (16, none)
  buf := le32 1 ++ le32 IN_MODIFY ++ le32 0 ++ le32 4 ++ [97, 98, 99, 100]
  closedAfterRead := false
  selShort := Sel.sent
  selOverflow := fun _ => Sel.sent
  selEvent := fun _ => Sel.sent
  notExist := fun _ => false

/-- The same read as `overrunEnv`, with other bytes left over after the header. -/
def overrunEnv2 : IterEnv :=
  { overrunEnv with buf := le32 1 ++ le32 IN_MODIFY ++ le32 0 ++ le32 4 ++ [120, 121, 122, 119] }

/-- The iteration `sampleEnv`, except that the `select`s that deliver events
find the channel `done` closed. -/
def sampleEnvShutdown : IterEnv :=
  { sampleEnv with selEvent := fun _ => Sel.done }

/-- An iteration that reads 16 bytes: one header that declares a name of 5000
bytes, more than `PathMax`. -/
def longNameEnv : IterEnv where
  closedTop := false
  wait := (true, none)
  selWait := Sel.sent
  read := (16, none)
  buf := le32 1 ++ le32 IN_MODIFY ++ le32 0 ++ le32 5000
  closedAfterRead := false
  selShort := Sel.sent
  selOverflow := fun _ => Sel.sent
  selEvent := fun _ => Sel.sent
  notExist := fun _ => false

/-! ## Bit lemmas -/

theorem and_two_pow_eq_iff (x i : Nat) : x &&& 2 ^ i = 2 ^ i ↔ x.testBit i = true := by
  constructor
  · intro h
    have h1 : (x &&& 2 ^ i).testBit i = (2 ^ i).testBit i := by rw [h]
    rw [Nat.testBit_and, Nat.testBit_two_pow_self] at h1
    simpa using h1
  · intro h
    apply Nat.eq_of_testBit_eq
    intro j
    rw [Nat.testBit_and, Nat.testBit_two_pow]
    by_cases hij : i = j
    · subst hij; simp [h]
    · simp [hij]

theorem newEvent_Name (b : OpBits) (name : GoString) (mask : Nat) :
    (newEvent b name mask).Name = name := by
  unfold newEvent
  simp only
  split_ifs <;> rfl

theorem newEvent_testBit (b : OpBits) (name : GoString) (mask : Nat) (j : Nat) :
    (newEvent b name mask).Op.testBit j =
      ((decide (hasFlag mask IN_CREATE ∨ hasFlag mask IN_MOVED_TO) && decide (b.create = j))
      || (decide (hasFlag mask IN_DELETE_SELF ∨ hasFlag mask IN_DELETE) && decide (b.remove = j))
      || (decide (hasFlag mask IN_MODIFY) && decide (b.write = j))
      || (decide (hasFlag mask IN_MOVE_SELF ∨ hasFlag mask IN_MOVED_FROM) && decide (b.rename = j))
      || (decide (hasFlag mask IN_ATTRIB) && decide (b.chmod = j))) := by
  unfold newEvent hasFlag
  simp only
  split_ifs <;>
    simp [OpBits.Create, OpBits.Remove, OpBits.Write, OpBits.Rename, OpBits.Chmod,
      Nat.testBit_two_pow, *]


/-! ## `newEvent` and `ignoreLinux` -/

/-- C2: `newEvent name mask` keeps the name, sets `Create` iff the mask has
`IN_CREATE` or `IN_MOVED_TO`, `Remove` iff it has `IN_DELETE` or
`IN_DELETE_SELF`, `Write` iff it has `IN_MODIFY`, `Rename` iff it has
`IN_MOVE_SELF` or `IN_MOVED_FROM`, `Chmod` iff it has `IN_ATTRIB`, and sets no
other bit; the bits of several kinds accumulate. -/
theorem C2_newEvent_bits (b : OpBits) (hb : b.Distinct) (name : GoString) (mask : Nat) :
    (newEvent b name mask).Name = name ∧
    (hasFlag (newEvent b name mask).Op b.Create ↔
      hasFlag mask IN_CREATE ∨ hasFlag mask IN_MOVED_TO) ∧
    (hasFlag (newEvent b name mask).Op b.Remove ↔
      hasFlag mask IN_DELETE ∨ hasFlag mask IN_DELETE_SELF) ∧
    (hasFlag (newEvent b name mask).Op b.Write ↔ hasFlag mask IN_MODIFY) ∧
    (hasFlag (newEvent b name mask).Op b.Rename ↔
      hasFlag mask IN_MOVE_SELF ∨ hasFlag mask IN_MOVED_FROM) ∧
    (hasFlag (newEvent b name mask).Op b.Chmod ↔ hasFlag mask IN_ATTRIB) ∧
    (∀ j, (newEvent b name mask).Op.testBit j = true →
      j = b.create ∨ j = b.remove ∨ j = b.write ∨ j = b.rename ∨ j = b.chmod) := by
  have hd : b.create ≠ b.write ∧ b.create ≠ b.remove ∧ b.create ≠ b.rename ∧
      b.create ≠ b.chmod ∧ b.write ≠ b.remove ∧ b.write ≠ b.rename ∧ b.write ≠ b.chmod ∧
      b.remove ≠ b.rename ∧ b.remove ≠ b.chmod ∧ b.rename ≠ b.chmod := by
    unfold OpBits.Distinct at hb
    simp only [List.nodup_cons, List.mem_cons, List.mem_singleton, not_or, List.not_mem_nil,
      not_false_eq_true, List.nodup_nil, and_true] at hb
    tauto
  obtain ⟨h1, h2, h3, h4, h5, h6, h7, h8, h9, h10⟩ := hd
  refine ⟨newEvent_Name b name mask, ?_, ?_, ?_, ?_, ?_, ?_⟩
  · unfold hasFlag OpBits.Create
    rw [and_two_pow_eq_iff, newEvent_testBit]
    simp [hasFlag, h1.symm, h2.symm, h3.symm, h4.symm]
  · unfold hasFlag OpBits.Remove
    rw [and_two_pow_eq_iff, newEvent_testBit]
    simp [hasFlag, h2, h5, h8.symm, h9.symm]
    tauto
  · unfold hasFlag OpBits.Write
    rw [and_two_pow_eq_iff, newEvent_testBit]
    simp [hasFlag, h1, h5.symm, h6.symm, h7.symm]
  · unfold hasFlag OpBits.Rename
    rw [and_two_pow_eq_iff, newEvent_testBit]
    simp [hasFlag, h3, h6, h8, h10.symm]
  · unfold hasFlag OpBits.Chmod
    rw [and_two_pow_eq_iff, newEvent_testBit]
    simp [hasFlag, h4, h7, h9, h10]
  · intro j hj
    rw [newEvent_testBit] at hj
    simp only [Bool.or_eq_true, Bool.and_eq_true, decide_eq_true_eq] at hj
    rcases hj with (((⟨_, h⟩ | ⟨_, h⟩) | ⟨_, h⟩) | ⟨_, h⟩) | ⟨_, h⟩ <;> simp [← h]

/-- C2 at the usual numbering of the kinds and a mask with `IN_MODIFY` and `IN_MOVED_TO`. -/
theorem C2_newEvent_bits_witness :
    OpBits.std.Distinct ∧
    (newEvent OpBits.std [97] 0x82).Name = [97] ∧
    (hasFlag (newEvent OpBits.std [97] 0x82).Op OpBits.std.Create ↔
      hasFlag 0x82 IN_CREATE ∨ hasFlag 0x82 IN_MOVED_TO) ∧
    (hasFlag (newEvent OpBits.std [97] 0x82).Op OpBits.std.Remove ↔
      hasFlag 0x82 IN_DELETE ∨ hasFlag 0x82 IN_DELETE_SELF) ∧
    (hasFlag (newEvent OpBits.std [97] 0x82).Op OpBits.std.Write ↔ hasFlag 0x82 IN_MODIFY) ∧
    (hasFlag (newEvent OpBits.std [97] 0x82).Op OpBits.std.Rename ↔
      hasFlag 0x82 IN_MOVE_SELF ∨ hasFlag 0x82 IN_MOVED_FROM) ∧
    (hasFlag (newEvent OpBits.std [97] 0x82).Op OpBits.std.Chmod ↔ hasFlag 0x82 IN_ATTRIB) ∧
    (∀ j, (newEvent OpBits.std [97] 0x82).Op.testBit j = true →
      j = OpBits.std.create ∨ j = OpBits.std.remove ∨ j = OpBits.std.write ∨
        j = OpBits.std.rename ∨ j = OpBits.std.chmod) :=
  ⟨by decide, C2_newEvent_bits OpBits.std (by decide) [97] 0x82⟩

/-- C9: `ignoreLinux` suppresses the event iff the mask has `IN_IGNORED`, or the
event has neither `Remove` nor `Rename` and the probe of its path reports that
it does not exist. The path is probed only in the second case: an event with
`Remove` or `Rename` and no `IN_IGNORED` is kept without a probe. -/
theorem C9_ignoreLinux (b : OpBits) (notExist : GoString → Bool) (e : Event) (mask : Nat) :
    ((e.ignoreLinux b notExist mask).1 = true ↔
      hasFlag mask IN_IGNORED ∨
        (¬ hasFlag e.Op b.Remove ∧ ¬ hasFlag e.Op b.Rename ∧ notExist e.Name = true)) ∧
    ((e.ignoreLinux b notExist mask).2 =
      if hasFlag mask IN_IGNORED ∨ hasFlag e.Op b.Remove ∨ hasFlag e.Op b.Rename then []
      else [e.Name]) ∧
    ((hasFlag e.Op b.Remove ∨ hasFlag e.Op b.Rename) → ¬ hasFlag mask IN_IGNORED →
      e.ignoreLinux b notExist mask = (false, [])) := by
  unfold Event.ignoreLinux hasFlag
  refine ⟨?_, ?_, ?_⟩
  · split_ifs with h1 h2
    · simp [h1]
    · simp only [h1, false_or]
      constructor
      · intro h; exact absurd h (by simp)
      · rintro ⟨ha, hb, -⟩; exact absurd h2 (by simp [ha, hb])
    · simp only [h1, false_or]
      have h3 : ¬ e.Op &&& b.Remove = b.Remove ∧ ¬ e.Op &&& b.Rename = b.Rename := by
        constructor
        · intro h; exact h2 (Or.inl h)
        · intro h; exact h2 (Or.inr h)
      simp [h3.1, h3.2]
  · split_ifs <;> first | rfl | tauto
  · intro h h0
    rw [if_neg h0, if_neg (not_not.mpr h)]

/-- C9 at a `Remove` event whose path is gone: it is kept and nothing is probed. -/
theorem C9_ignoreLinux_witness :
    (hasFlag (newEvent OpBits.std [97] IN_DELETE).Op OpBits.std.Remove ∨
      hasFlag (newEvent OpBits.std [97] IN_DELETE).Op OpBits.std.Rename) ∧
    ¬ hasFlag IN_DELETE IN_IGNORED ∧
    (newEvent OpBits.std [97] IN_DELETE).ignoreLinux OpBits.std (fun _ => true) IN_DELETE
      = (false, []) :=
  ⟨by decide, by decide,
    (C9_ignoreLinux OpBits.std (fun _ => true) (newEvent OpBits.std [97] IN_DELETE)
      IN_DELETE).2.2 (by decide) (by decide)⟩

/-! ## The poller -/

/-- C7 (code at the failing input): creating the epoll descriptor and the pipe
succeeds, registering the notification descriptor fails, registering the pipe
succeeds; `newFdPoller` returns a poller and a nil error, and closes nothing. -/
theorem C7_newFdPoller_ignores_failed_registration :
    pollerEnvCtlFails.stepFailed ∧
    newFdPoller pollerEnvCtlFails 3 =
      (some { fd := 3, epfd := 4, pipe0 := 5, pipe1 := 6 }, none,
        [Effect.epollCreate1, Effect.pipe2, Effect.epollCtlAdd 4 3, Effect.epollCtlAdd 4 5]) := by
  decide

/-- C8 (code at the failing input): for the poller with descriptors 4, 5, 6
`close()` makes one `unix.Close` call, on the epoll descriptor; both ends of
the wake pipe stay open. -/
theorem C8_close_leaves_pipe_open :
    fdPoller.close { fd := 3, epfd := 4, pipe0 := 5, pipe1 := 6 } = [Effect.close 4] ∧
    openAfter [3, 4, 5, 6] (fdPoller.close { fd := 3, epfd := 4, pipe0 := 5, pipe1 := 6 })
      = [3, 5, 6] := by
  decide

/-! ## The watch maps -/

theorem mapGet_mapDelete_self {κ α : Type} [DecidableEq κ] (m : List (κ × α)) (k : κ) :
    mapGet (mapDelete m k) k = none := by
  induction m with
  | nil => rfl
  | cons p m ih =>
    obtain ⟨k1, v⟩ := p
    by_cases h : k1 = k
    · simpa [mapDelete, h] using ih
    · simpa [mapDelete, h, mapGet] using ih

theorem mapGet_mapDelete_of_ne {κ α : Type} [DecidableEq κ] (m : List (κ × α)) (k k2 : κ)
    (h : k2 ≠ k) : mapGet (mapDelete m k) k2 = mapGet m k2 := by
  induction m with
  | nil => rfl
  | cons p m ih =>
    obtain ⟨k1, v⟩ := p
    by_cases h1 : k1 = k
    · have h2 : ¬ k1 = k2 := fun h3 => h (h3.symm.trans h1)
      simpa [mapDelete, h1, mapGet, h2, h.symm] using ih
    · by_cases h2 : k1 = k2
      · subst h2
        simp [mapDelete, List.filter_cons, h1, mapGet]
      · simpa [mapDelete, h1, mapGet, h2] using ih

theorem mapDelete_idem {κ α : Type} [DecidableEq κ] (m : List (κ × α)) (k : κ) :
    mapDelete (mapDelete m k) k = mapDelete m k := by
  simp [mapDelete, List.filter_filter]

theorem filter_key_mapDelete {κ α : Type} [DecidableEq κ] (m : List (κ × α)) (k : κ) :
    (mapDelete m k).filter (fun p => decide (p.1 = k)) = [] := by
  simp [mapDelete, List.filter_filter, List.filter_eq_nil_iff]

theorem Add_paths (clean : GoString → GoString) (w : Watcher) (name : GoString)
    (kernel : Int × Option GoError) : (w.Add clean name kernel).1.paths = w.paths := by
  unfold Watcher.Add
  simp only
  split_ifs
  · rfl
  · rfl
  · split <;> rfl

/-- `Add` on a watcher whose shutdown flag is set: an error, no change, no kernel call. -/
theorem Add_closed (clean : GoString → GoString) (w : Watcher) (name : GoString)
    (kernel : Int × Option GoError) (h : w.isClosed = true) :
    w.Add clean name kernel = (w, some (GoError.msg "inotify instacne already closed"), []) := by
  unfold Watcher.Add
  simp [h]

theorem resolveHandle_paths_nil (w : Watcher) (wd : Int) (mask : Nat) (h : w.paths = []) :
    (resolveHandle w wd mask).1 = w := by
  unfold resolveHandle
  simp [h, mapGet]

theorem deliver_w (b : OpBits) (env : IterEnv) (w : Watcher) (tr : List Effect) (visit : Visit)
    (name : GoString) : (deliver b env w tr visit name).w = w := by
  unfold deliver
  simp only
  split_ifs <;> first | rfl | (split <;> rfl)

theorem recordStep_paths_nil (b : OpBits) (env : IterEnv) (w : Watcher) (offset : Nat)
    (h : w.paths = []) : (recordStep b env w offset).w.paths = [] := by
  unfold recordStep
  split_ifs
  · simp only [resolveHandle_paths_nil w _ _ h]
    split_ifs
    · exact h
    · split
      · exact h
      · rw [deliver_w]; exact h
  · exact h

/-- Nothing writes the reverse map: it is empty in every state reached from a
fresh watcher by calls of `Add`, `Remove` and passes of the worker. -/
theorem runCalls_paths_nil (clean : GoString → GoString) (b : OpBits) (cs : List Call)
    (w : Watcher) (h : w.paths = []) : (runCalls clean b w cs).paths = [] := by
  induction cs generalizing w with
  | nil => exact h
  | cons c cs ih =>
    unfold runCalls
    rw [List.foldl_cons]
    apply ih
    cases c with
    | add name kernel => simp only [Call.apply]; rw [Add_paths]; exact h
    | remove name kernel =>
      simp only [Call.apply, Watcher.Remove]
      split
      · exact h
      · split_ifs <;> simp [h, mapDelete]
    | record env offset => exact recordStep_paths_nil b env w offset h

/-- C1 (code at the failing input): on the watcher `NewWatcher` returns, `Add("a")`
with kernel handle `1` succeeds and stores the watch entry with handle `1`, and
the reverse map has no row for handle `1`. -/
theorem C1_add_leaves_reverse_map_empty :
    (NewWatcher watcherEnvOk).1 = some freshWatcher ∧
    (freshWatcher.Add id [97] (1, none)).2.1 = none ∧
    mapGet (freshWatcher.Add id [97] (1, none)).1.watches [97]
      = some { wd := 1, flags := agnosticEvents } ∧
    mapGet (freshWatcher.Add id [97] (1, none)).1.paths 1 = none := by
  decide

/-- C4 (code at the failing input): on a watcher with a watch on `"a"` and the
shutdown flag set, `Remove("a")` returns nil, deletes the watch entry and issues
the kernel call that removes the watch. -/
theorem C4_remove_ignores_shutdown :
    watchedThenClosed.isClosed = true ∧
    mapGet watchedThenClosed.watches [97] = some { wd := 1, flags := agnosticEvents } ∧
    watchedThenClosed.Remove id [97] (0, none) =
      ({ watchedThenClosed with watches := [] }, none, [Effect.inotifyRmWatch 3 1]) := by
  decide

/-- C5 (counterexample): the path `"a"` has an entry with stored mask `m`, the
requested event set; after a second successful `Add("a")` the stored mask is
not the union of `m` and the requested event set. -/
theorem C5_counterexample :
    mapGet watchedOnce.watches [97] = some { wd := 1, flags := agnosticEvents } ∧
    (watchedOnce.Add id [97] (1, none)).2.1 = none ∧
    mapGet (watchedOnce.Add id [97] (1, none)).1.watches [97]
      = some { wd := 1, flags := 0x20000fc6 } ∧
    (0x20000fc6 : Nat) ≠ agnosticEvents ||| agnosticEvents := by
  decide

/-- C5 (amended): a successful `Add` leaves exactly one entry for the cleaned
path and leaves every other entry as it was. The entry holds the handle the
kernel returned; its mask is the requested event set when the path had no
entry, and the union of the old mask, the requested event set and `IN_MASK_ADD`
when it had one. The kernel call carries the same mask. -/
theorem C5_add_merges_mask (clean : GoString → GoString) (w : Watcher) (name : GoString)
    (wd : Int) (errno : Option GoError) (hopen : w.isClosed = false) (hwd : wd ≠ -1) :
    (w.Add clean name (wd, errno)).2.1 = none ∧
    ((w.Add clean name (wd, errno)).1.watches.filter
      (fun p => decide (p.1 = clean name))).length = 1 ∧
    (∀ p, p ≠ clean name →
      mapGet (w.Add clean name (wd, errno)).1.watches p = mapGet w.watches p) ∧
    mapDelete (w.Add clean name (wd, errno)).1.watches (clean name)
      = mapDelete w.watches (clean name) ∧
    (mapGet w.watches (clean name) = none →
      mapGet (w.Add clean name (wd, errno)).1.watches (clean name)
        = some { wd := toUint32 wd, flags := agnosticEvents } ∧
      (w.Add clean name (wd, errno)).2.2
        = [Effect.inotifyAddWatch w.fd (clean name) agnosticEvents]) ∧
    (∀ e, mapGet w.watches (clean name) = some e →
      mapGet (w.Add clean name (wd, errno)).1.watches (clean name)
        = some { wd := toUint32 wd, flags := e.flags ||| agnosticEvents ||| IN_MASK_ADD } ∧
      (w.Add clean name (wd, errno)).2.2
        = [Effect.inotifyAddWatch w.fd (clean name)
            (e.flags ||| agnosticEvents ||| IN_MASK_ADD)]) := by
  have hfl : ∀ x : Nat, agnosticEvents ||| (x ||| IN_MASK_ADD)
      = x ||| agnosticEvents ||| IN_MASK_ADD := by
    intro x
    rw [← Nat.lor_assoc, Nat.lor_comm agnosticEvents x]
  unfold Watcher.Add
  simp only [hopen, Bool.false_eq_true, if_false, hwd]
  cases hget : mapGet w.watches (clean name) with
  | none =>
    simp only [mapSet, mapGet, List.filter_cons, decide_True, if_true, List.length_cons,
      filter_key_mapDelete, List.length_nil, true_and, reduceCtorEq, false_implies,
      implies_true, and_true]
    refine ⟨?_, ?_⟩
    · intro p hp
      rw [if_neg (fun h => hp h.symm)]
      exact mapGet_mapDelete_of_ne _ _ _ hp
    · simp [mapDelete, List.filter_filter]
  | some e =>
    simp only [mapSet, mapGet, List.filter_cons, decide_True, if_true, List.length_cons,
      filter_key_mapDelete, List.length_nil, true_and, reduceCtorEq, false_implies,
      Option.some.injEq, hfl]
    refine ⟨?_, ?_, ?_⟩
    · intro p hp
      rw [if_neg (fun h => hp h.symm)]
      exact mapGet_mapDelete_of_ne _ _ _ hp
    · simp [mapDelete, List.filter_filter]
    · intro e1 he1
      subst he1
      exact ⟨rfl, rfl⟩

/-- C5 (amended) at the second `Add("a")` on `watchedOnce`. -/
theorem C5_add_merges_mask_witness :
    watchedOnce.isClosed = false ∧ (1 : Int) ≠ -1 ∧
    mapGet (watchedOnce.Add id [97] (1, none)).1.watches [97]
      = some { wd := toUint32 1,
               flags := agnosticEvents ||| agnosticEvents ||| IN_MASK_ADD } :=
  ⟨by decide, by decide,
    ((C5_add_merges_mask id watchedOnce [97] 1 none (by decide) (by decide)).2.2.2.2.2
      { wd := 1, flags := agnosticEvents } (by decide)).1⟩

/-! ## The worker: a failed read -/

/-- C6 (counterexample): two iterations in a row in which the shutdown flag is
not set, the descriptor is ready and the read returns `-1` with `EBADF`. After
the first error the worker waits and reads again, delivers a second error, is
still inside its loop and has closed nothing. -/
theorem C6_counterexample :
    readEvents OpBits.std [fatalReadEnv, fatalReadEnv] freshWatcher =
      (freshWatcher,
        [Effect.pollerWait, Effect.read 3, Effect.sendError (some (GoError.errno 9)),
         Effect.pollerWait, Effect.read 3, Effect.sendError (some (GoError.errno 9))],
        WorkerStatus.running) := by
  decide

/-- C6 (amended): in an iteration in which the shutdown flag is not set, the
poller reports the descriptor ready and the read returns a length of zero or
less with an error other than `EINTR`, the worker delivers exactly one error
(`io.EOF` for length zero, the error of the read otherwise), leaves the maps as
they are and goes on with the next iteration of its loop; what follows is the
behaviour of the worker on the remaining iterations. -/
theorem C6_failed_read_continues (b : OpBits) (env : IterEnv) (rest : List IterEnv)
    (w : Watcher) (hTop : env.closedTop = false) (hWait : env.wait = (true, none))
    (hN : env.read.1 ≤ 0) (hErr : env.read.2 ≠ some (GoError.errno EINTR))
    (hAfter : env.closedAfterRead = false) (hSel : env.selShort = Sel.sent) :
    iteration b env w =
      { w := w,
        trace := [Effect.pollerWait, Effect.read w.fd,
          Effect.sendError (if env.read.1 = 0 then some GoError.eof else env.read.2)],
        visits := [], ctl := Ctl.next, offset := 0 } ∧
    readEvents b (env :: rest) w =
      ((readEvents b rest w).1,
        [Effect.pollerWait, Effect.read w.fd,
          Effect.sendError (if env.read.1 = 0 then some GoError.eof else env.read.2)]
          ++ (readEvents b rest w).2.1,
        (readEvents b rest w).2.2) := by
  have hit : iteration b env w =
      { w := w,
        trace := [Effect.pollerWait, Effect.read w.fd,
          Effect.sendError (if env.read.1 = 0 then some GoError.eof else env.read.2)],
        visits := [], ctl := Ctl.next, offset := 0 } := by
    have h16 : env.read.1 < (SizeofInotifyEvent : Int) := by
      have : ((SizeofInotifyEvent : Nat) : Int) = 16 := by decide
      omega
    unfold iteration
    simp only [hTop, hWait, hErr, hAfter, hSel, h16, Bool.false_eq_true, if_false, if_true,
      ne_eq, not_true_eq_false, not_false_eq_true, List.cons_append, List.nil_append]
    by_cases h0 : env.read.1 = 0
    · simp [h0]
    · have hneg : env.read.1 < 0 := by omega
      simp [h0, hneg]
  refine ⟨hit, ?_⟩
  rw [readEvents, hit]

/-- C6 (amended) at `fatalReadEnv` followed by no further iteration. -/
theorem C6_failed_read_continues_witness :
    fatalReadEnv.closedTop = false ∧ fatalReadEnv.wait = (true, none) ∧
    fatalReadEnv.read.1 ≤ 0 ∧ fatalReadEnv.read.2 ≠ some (GoError.errno EINTR) ∧
    fatalReadEnv.closedAfterRead = false ∧ fatalReadEnv.selShort = Sel.sent ∧
    (iteration OpBits.std fatalReadEnv freshWatcher).ctl = Ctl.next :=
  ⟨rfl, rfl, by decide, by decide, rfl, rfl,
    by rw [(C6_failed_read_continues OpBits.std fatalReadEnv [] freshWatcher rfl rfl
      (by decide) (by decide) rfl rfl).1]⟩

/-! ## The record loop: bounds -/

theorem toUint32_sub_le (n : Int) (hn : 16 ≤ n) : ((toUint32 (n - 16) : Nat) : Int) ≤ n - 16 := by
  unfold toUint32
  omega

theorem appendName_ok (env : IterEnv) (o nameLen : Nat) (name nm tail : GoString)
    (ho : o < bufLen)
    (h : appendName env o nameLen name = .ok (nm, tail)) :
    nameLen ≤ PathMax ∧ tail = trimRightNul (window env.buf (o + 16) nameLen) := by
  have hb : bufLen = 65536 := by decide
  unfold appendName at h
  by_cases h0 : nameLen > 0
  · rw [if_pos h0] at h
    have hmod : (o + SizeofInotifyEvent) % 4294967296 = o + 16 := by
      have : SizeofInotifyEvent = 16 := rfl
      omega
    rw [hmod] at h
    by_cases h1 : ¬ o + 16 < bufLen
    · rw [if_pos h1] at h; cases h
    · rw [if_neg h1] at h
      by_cases h2 : ¬ nameLen ≤ PathMax
      · rw [if_pos h2] at h; cases h
      · rw [if_neg h2] at h
        simp only [Except.ok.injEq, Prod.mk.injEq] at h
        exact ⟨not_not.mp h2, h.2.symm⟩
  · have hz : nameLen = 0 := by omega
    subst hz
    rw [if_neg h0] at h
    simp only [Except.ok.injEq, Prod.mk.injEq] at h
    refine ⟨Nat.zero_le _, ?_⟩
    rw [← h.2]
    rfl

theorem deliver_visit (b : OpBits) (env : IterEnv) (w : Watcher) (tr : List Effect) (visit : Visit)
    (name : GoString) : (deliver b env w tr visit name).visit = some visit := by
  unfold deliver
  simp only
  split_ifs <;> first | rfl | (split <;> rfl)

theorem deliver_next (b : OpBits) (env : IterEnv) (w : Watcher) (tr : List Effect) (visit : Visit)
    (name : GoString) (o1 : Nat) (h : (deliver b env w tr visit name).next = .ok o1) :
    o1 = (visit.offset + (SizeofInotifyEvent + visit.nameLen)) % 4294967296 := by
  unfold deliver at h
  simp only at h
  split_ifs at h
  · simpa using h.symm
  · split at h
    · simpa using h.symm
    · exact absurd h (by simp)

theorem recordStep_bounds (b : OpBits) (env : IterEnv) (w : Watcher) (o : Nat) :
    (∀ v, (recordStep b env w o).visit = some v →
      v.offset = o ∧ o < bufLen ∧ v.nameLen ≤ PathMax ∧
      v.name = trimRightNul (window env.buf (o + 16) v.nameLen)) ∧
    (∀ o1, (recordStep b env w o).next = .ok o1 →
      ∃ v, (recordStep b env w o).visit = some v ∧ o1 = o + 16 + v.nameLen) := by
  have hb : bufLen = 65536 := by decide
  have hs : SizeofInotifyEvent = 16 := rfl
  have hp : PathMax = 4096 := rfl
  unfold recordStep
  by_cases h0 : ¬ o < bufLen
  · rw [if_pos h0]; simp
  · rw [if_neg h0]
    simp only
    by_cases h1 : (reportOverflow env o (le32At env.buf (o + 4))).2 = true
    · rw [if_pos h1]; simp
    · rw [if_neg h1]
      split
      · simp
      · rename_i nm tail hname
        have hk := appendName_ok env o _ _ nm tail (not_not.mp h0) hname
        rw [deliver_visit]
        constructor
        · intro v hv
          simp only [Option.some.injEq] at hv
          subst hv
          exact ⟨rfl, not_not.mp h0, hk.1, hk.2⟩
        · intro o1 ho1
          have := deliver_next _ _ _ _ _ _ _ ho1
          refine ⟨_, rfl, ?_⟩
          show o1 = o + 16 + le32At env.buf (o + 12)
          have h3 := hk.1
          have h4 : (o + (SizeofInotifyEvent + le32At env.buf (o + 12))) % 4294967296
              = o + 16 + le32At env.buf (o + 12) := by
            rw [hs]; omega
          rw [this]; exact h4

theorem appendName_error (env : IterEnv) (o nameLen : Nat) (name : GoString) (c : Crash)
    (h : appendName env o nameLen name = .error c) : c ≠ .fuel := by
  unfold appendName at h
  split_ifs at h
  all_goals (cases h; simp)

theorem deliver_error (b : OpBits) (env : IterEnv) (w : Watcher) (tr : List Effect)
    (visit : Visit) (name : GoString) (c : Ctl)
    (h : (deliver b env w tr visit name).next = .error c) : c = .ret := by
  unfold deliver at h
  simp only at h
  split_ifs at h
  all_goals first
    | cases h
    | (split at h <;> first | (cases h; rfl) | cases h)

theorem recordStep_not_fuel (b : OpBits) (env : IterEnv) (w : Watcher) (o : Nat) :
    (recordStep b env w o).next ≠ .error (.crash .fuel) := by
  unfold recordStep
  by_cases h0 : ¬ o < bufLen
  · rw [if_pos h0]; simp
  · rw [if_neg h0]
    simp only
    by_cases h1 : (reportOverflow env o (le32At env.buf (o + 4))).2 = true
    · rw [if_pos h1]; simp
    · rw [if_neg h1]
      split
      · rename_i c hc
        have := appendName_error _ _ _ _ _ hc
        simpa using this
      · intro h
        have := deliver_error _ _ _ _ _ _ _ h
        simp at this

theorem recordLoop_bounds (b : OpBits) (env : IterEnv) (n : Int) (hn : 16 ≤ n) :
    ∀ (fuel : Nat) (w : Watcher) (o : Nat),
      (∀ v ∈ (recordLoop b env n fuel w o).visits,
        (v.offset : Int) + 16 ≤ n ∧ v.offset < bufLen ∧ v.nameLen ≤ PathMax ∧
        v.name = trimRightNul (window env.buf (v.offset + 16) v.nameLen)) ∧
      (n.toNat < o + 16 * (fuel + 1) → (recordLoop b env n fuel w o).ctl ≠ .crash .fuel) := by
  have hu := toUint32_sub_le n hn
  have hs : ((SizeofInotifyEvent : Nat) : Int) = 16 := rfl
  intro fuel
  induction fuel with
  | zero =>
    intro w o
    unfold recordLoop
    split_ifs with hc
    · refine ⟨by simp, fun hf => ?_⟩
      rw [hs] at hc
      omega
    · exact ⟨by simp, fun _ => by simp⟩
  | succ fuel ih =>
    intro w o
    unfold recordLoop
    rw [hs]
    split_ifs with hc
    · obtain ⟨hv, hnext⟩ := recordStep_bounds b env w o
      simp only
      split
      · rename_i c hc1
        constructor
        · intro v hv1
          simp only [Option.mem_toList, Option.mem_def] at hv1
          obtain ⟨h1, h2, h3, h4⟩ := hv v hv1
          subst h1
          exact ⟨by omega, h2, h3, h4⟩
        · intro _ hcr
          simp only at hcr
          subst hcr
          exact recordStep_not_fuel b env w o hc1
      · rename_i o1 ho1
        obtain ⟨v0, hv0, ho1eq⟩ := hnext o1 ho1
        obtain ⟨ihv, ihf⟩ := ih (recordStep b env w o).w o1
        constructor
        · intro v hv1
          simp only [List.mem_append, Option.mem_toList, Option.mem_def] at hv1
          rcases hv1 with hv1 | hv1
          · obtain ⟨h1, h2, h3, h4⟩ := hv v hv1
            subst h1
            exact ⟨by omega, h2, h3, h4⟩
          · exact ihv v hv1
        · intro hf
          simp only
          apply ihf
          omega
    · exact ⟨by simp, fun _ => by simp⟩

/-! ## The record loop on well-formed records -/

theorem byteOf_append_mid (pre mid rest : List Nat) (i : Nat) (hi : i < mid.length) :
    byteOf (pre ++ mid ++ rest) (pre.length + i) = mid.getD i 0 % 256 := by
  unfold byteOf
  congr 1
  rw [List.getD_eq_getElem?_getD, List.getD_eq_getElem?_getD, List.append_assoc,
    List.getElem?_append_right (by omega)]
  simp only [Nat.add_sub_cancel_left]
  rw [List.getElem?_append_left hi]

theorem le32_length (x : Nat) : (le32 x).length = 4 := rfl

theorem le32At_append (pre rest : List Nat) (x : Nat) (hx : x < 4294967296) :
    le32At (pre ++ le32 x ++ rest) pre.length = x := by
  unfold le32At
  have h0 := byteOf_append_mid pre (le32 x) rest 0 (by simp [le32_length])
  have h1 := byteOf_append_mid pre (le32 x) rest 1 (by simp [le32_length])
  have h2 := byteOf_append_mid pre (le32 x) rest 2 (by simp [le32_length])
  have h3 := byteOf_append_mid pre (le32 x) rest 3 (by simp [le32_length])
  rw [Nat.add_zero] at h0
  rw [h0, h1, h2, h3]
  simp only [le32, List.getD_cons_zero, List.getD_cons_succ, Nat.mod_mod]
  omega

theorem window_append (pre mid rest : List Nat) (hb : ∀ c ∈ mid, c < 256) :
    window (pre ++ mid ++ rest) pre.length mid.length = mid := by
  unfold window
  apply List.ext_getElem
  · simp
  · intro i h1 h2
    simp only [List.getElem_map, List.getElem_range]
    rw [byteOf_append_mid pre mid rest i h2, List.getD_eq_getElem?_getD,
      List.getElem?_eq_getElem h2]
    simp only [Option.getD_some]
    exact Nat.mod_eq_of_lt (hb _ (List.getElem_mem h2))

theorem trimRightNul_padded (name : List Nat) (pad : Nat) (hname : ∀ c ∈ name, 0 < c) :
    trimRightNul (name ++ List.replicate pad 0) = name := by
  unfold trimRightNul
  rw [List.reverse_append, List.reverse_replicate]
  have h1 : ∀ (k : Nat) (l : List Nat),
      List.dropWhile (fun c => c == 0) (List.replicate k 0 ++ l)
        = List.dropWhile (fun c => c == 0) l := by
    intro k l
    induction k with
    | zero => simp
    | succ k ih => simp [List.replicate_succ, List.dropWhile_cons, ih]
  rw [h1]
  have h2 : List.dropWhile (fun c => c == 0) name.reverse = name.reverse := by
    cases hr : name.reverse with
    | nil => rfl
    | cons a l =>
      have ha : a ∈ name := by
        have : a ∈ name.reverse := by rw [hr]; exact List.mem_cons_self _ _
        exact List.mem_reverse.mp this
      have := hname a ha
      simp [List.dropWhile_cons]
      omega
  rw [h2, List.reverse_reverse]

theorem toInt32_toUint32 (wd : Int) (h1 : -2147483648 ≤ wd) (h2 : wd < 2147483648) :
    toInt32 (toUint32 wd) = wd := by
  unfold toInt32 toUint32
  split_ifs <;> omega

theorem toUint32_lt (wd : Int) : toUint32 wd < 4294967296 := by
  unfold toUint32
  omega

theorem encode_length (r : RawRecord) : r.encode.length = 16 + r.len := by
  simp [RawRecord.encode, le32_length, RawRecord.len]
  omega



theorem reportOverflow_sent (env : IterEnv) (o mask : Nat) (h : env.selOverflow o = Sel.sent) :
    (reportOverflow env o mask).2 = false := by
  unfold reportOverflow
  split_ifs
  · rw [h]
  · rfl

theorem deliver_next_sent (b : OpBits) (env : IterEnv) (w : Watcher) (tr : List Effect)
    (visit : Visit) (name : GoString) (h : env.selEvent visit.offset = Sel.sent) :
    (deliver b env w tr visit name).next
      = .ok ((visit.offset + (SizeofInotifyEvent + visit.nameLen)) % 4294967296) := by
  unfold deliver
  simp only [h]
  split_ifs <;> rfl

theorem appendName_wellformed (env : IterEnv) (pre rest : List Nat) (r : RawRecord)
    (name : GoString) (hwf : r.WellFormed) (hbuf : env.buf = pre ++ r.encode ++ rest)
    (hfit : pre.length + 16 + r.len ≤ bufLen) :
    ∃ nm, appendName env pre.length r.len name = .ok (nm, r.name) := by
  obtain ⟨-, -, -, -, hname, hlen⟩ := hwf
  have hb : bufLen = 65536 := by decide
  have hs : SizeofInotifyEvent = 16 := rfl
  unfold appendName
  by_cases h0 : r.len > 0
  · rw [if_pos h0]
    have hmod : (pre.length + SizeofInotifyEvent) % 4294967296 = pre.length + 16 := by omega
    rw [hmod, if_neg (by omega), if_neg (by omega)]
    have e : env.buf = (pre ++ le32 (toUint32 r.wd) ++ le32 r.mask ++ le32 r.cookie ++ le32 r.len)
        ++ (r.name ++ List.replicate r.pad 0) ++ rest := by
      simp [hbuf, RawRecord.encode, List.append_assoc]
    have hw := window_append
      (pre ++ le32 (toUint32 r.wd) ++ le32 r.mask ++ le32 r.cookie ++ le32 r.len)
      (r.name ++ List.replicate r.pad 0) rest
      (by
        intro c hc
        rcases List.mem_append.mp hc with h | h
        · exact (hname c h).2
        · rw [List.eq_of_mem_replicate h]; decide)
    have hl1 : (pre ++ le32 (toUint32 r.wd) ++ le32 r.mask ++ le32 r.cookie ++ le32 r.len).length
        = pre.length + 16 := by simp [le32_length]
    have hl2 : (r.name ++ List.replicate r.pad 0).length = r.len := by simp [RawRecord.len]
    rw [hl1, hl2, ← e] at hw
    rw [hw]
    simp only
    rw [trimRightNul_padded r.name r.pad (fun c hc => (hname c hc).1)]
    exact ⟨_, rfl⟩
  · rw [if_neg h0]
    have hz : r.name = [] := by
      have : r.name.length = 0 := by unfold RawRecord.len at h0; omega
      exact List.length_eq_zero.mp this
    rw [hz]
    exact ⟨_, rfl⟩

theorem header_wellformed (env : IterEnv) (pre rest : List Nat) (r : RawRecord)
    (hwf : r.WellFormed) (hbuf : env.buf = pre ++ r.encode ++ rest) :
    le32At env.buf pre.length = toUint32 r.wd ∧
    le32At env.buf (pre.length + 4) = r.mask ∧
    le32At env.buf (pre.length + 12) = r.len := by
  obtain ⟨hw1, hw2, hm, hc, hname, hlen⟩ := hwf
  have hp : PathMax = 4096 := rfl
  refine ⟨?_, ?_, ?_⟩
  · have e : env.buf = pre ++ le32 (toUint32 r.wd) ++ (le32 r.mask ++ le32 r.cookie
        ++ le32 r.len ++ (r.name ++ List.replicate r.pad 0) ++ rest) := by
      simp [hbuf, RawRecord.encode, List.append_assoc]
    rw [e]
    exact le32At_append _ _ _ (toUint32_lt _)
  · have e : env.buf = (pre ++ le32 (toUint32 r.wd)) ++ le32 r.mask ++ (le32 r.cookie
        ++ le32 r.len ++ (r.name ++ List.replicate r.pad 0) ++ rest) := by
      simp [hbuf, RawRecord.encode, List.append_assoc]
    have h := le32At_append (pre ++ le32 (toUint32 r.wd)) (le32 r.cookie
        ++ le32 r.len ++ (r.name ++ List.replicate r.pad 0) ++ rest) r.mask hm
    rw [← e] at h
    simpa [le32_length] using h
  · have e : env.buf = (pre ++ le32 (toUint32 r.wd) ++ le32 r.mask ++ le32 r.cookie)
        ++ le32 r.len ++ ((r.name ++ List.replicate r.pad 0) ++ rest) := by
      simp [hbuf, RawRecord.encode, List.append_assoc]
    have h := le32At_append (pre ++ le32 (toUint32 r.wd) ++ le32 r.mask ++ le32 r.cookie)
        ((r.name ++ List.replicate r.pad 0) ++ rest) r.len (by omega)
    rw [← e] at h
    simpa [le32_length] using h

theorem recordStep_wellformed (b : OpBits) (env : IterEnv) (w : Watcher) (pre rest : List Nat)
    (r : RawRecord) (hwf : r.WellFormed) (hbuf : env.buf = pre ++ r.encode ++ rest)
    (hfit : pre.length + 16 + r.len ≤ bufLen)
    (hsel : ∀ o, env.selOverflow o = Sel.sent ∧ env.selEvent o = Sel.sent) :
    (recordStep b env w pre.length).visit
      = some { offset := pre.length, wd := r.wd, mask := r.mask, nameLen := r.len,
               name := r.name } ∧
    (recordStep b env w pre.length).next = .ok (pre.length + (16 + r.len)) := by
  have hwf0 := hwf
  obtain ⟨hw1, hw2, hm, hc, hname, hlen⟩ := hwf
  have hb : bufLen = 65536 := by decide
  have hs : SizeofInotifyEvent = 16 := rfl
  have hp : PathMax = 4096 := rfl
  obtain ⟨eWd, eMask, eLen⟩ := header_wellformed env pre rest r hwf0 hbuf
  unfold recordStep
  rw [if_neg (by omega)]
  simp only [eWd, eMask, eLen, reportOverflow_sent env pre.length r.mask (hsel _).1,
    Bool.false_eq_true, if_false]
  obtain ⟨nm, hnm⟩ := appendName_wellformed env pre rest r
    (resolveHandle w (toInt32 (toUint32 r.wd)) r.mask).2 hwf0 hbuf hfit
  rw [hnm]
  simp only
  rw [deliver_visit, deliver_next_sent _ _ _ _ _ _ (hsel _).2, toInt32_toUint32 r.wd hw1 hw2]
  refine ⟨rfl, ?_⟩
  simp only [hs]
  congr 1
  omega



theorem toUint32_sub_eq (n : Nat) (h1 : 16 ≤ n) (h2 : n ≤ bufLen) :
    toUint32 ((n : Int) - (SizeofInotifyEvent : Nat)) = n - 16 := by
  have hb : bufLen = 65536 := by decide
  have hs : ((SizeofInotifyEvent : Nat) : Int) = 16 := rfl
  unfold toUint32
  rw [hs]
  omega

theorem encodeAll_cons (r : RawRecord) (rs : List RawRecord) :
    encodeAll (r :: rs) = r.encode ++ encodeAll rs := by
  simp [encodeAll]

theorem encodeAll_length_ge (rs : List RawRecord) : 16 * rs.length ≤ (encodeAll rs).length := by
  induction rs with
  | nil => simp [encodeAll]
  | cons r rs ih =>
    rw [encodeAll_cons, List.length_append, encode_length, List.length_cons]
    omega

theorem recordLoop_wellformed (b : OpBits) (env : IterEnv) (n : Nat) (hn : 16 ≤ n)
    (hfit : n ≤ bufLen)
    (hsel : ∀ o, env.selOverflow o = Sel.sent ∧ env.selEvent o = Sel.sent) :
    ∀ (rs : List RawRecord) (pre rest : List Nat) (fuel : Nat) (w : Watcher),
      (∀ r ∈ rs, r.WellFormed) → env.buf = pre ++ encodeAll rs ++ rest →
      n = pre.length + (encodeAll rs).length → rs.length ≤ fuel →
      (recordLoop b env n fuel w pre.length).visits = expectedVisits pre.length rs ∧
      (recordLoop b env n fuel w pre.length).ctl = Ctl.next ∧
      (recordLoop b env n fuel w pre.length).offset = n := by
  have hu := toUint32_sub_eq n hn hfit
  intro rs
  induction rs with
  | nil =>
    intro pre rest fuel w _ _ hlen _
    have hpl : pre.length = n := by simp [encodeAll] at hlen; omega
    have hc : ¬ pre.length ≤ toUint32 ((n : Int) - (SizeofInotifyEvent : Nat)) := by
      rw [hu]; omega
    cases fuel with
    | zero =>
      unfold recordLoop
      rw [if_neg hc]
      exact ⟨rfl, rfl, hpl⟩
    | succ fuel =>
      unfold recordLoop
      rw [if_neg hc]
      exact ⟨rfl, rfl, hpl⟩
  | cons r rs ih =>
    intro pre rest fuel w hwf hbuf hlen hfuel
    rw [encodeAll_cons] at hbuf hlen
    rw [List.length_append, encode_length] at hlen
    have hc : pre.length ≤ toUint32 ((n : Int) - (SizeofInotifyEvent : Nat)) := by
      rw [hu]; omega
    cases fuel with
    | zero => simp at hfuel
    | succ fuel =>
      have hbuf1 : env.buf = pre ++ r.encode ++ (encodeAll rs ++ rest) := by
        rw [hbuf]; simp [List.append_assoc]
      obtain ⟨hv, hnext⟩ := recordStep_wellformed b env w pre (encodeAll rs ++ rest) r
        (hwf r (List.mem_cons_self _ _)) hbuf1 (by omega) hsel
      have hbuf2 : env.buf = (pre ++ r.encode) ++ encodeAll rs ++ rest := by
        rw [hbuf]; simp [List.append_assoc]
      have hpl : (pre ++ r.encode).length = pre.length + (16 + r.len) := by
        rw [List.length_append, encode_length]
      obtain ⟨i1, i2, i3⟩ := ih (pre ++ r.encode) rest fuel (recordStep b env w pre.length).w
        (fun r1 h1 => hwf r1 (List.mem_cons_of_mem _ h1)) hbuf2 (by rw [hpl]; omega)
        (by simpa using hfuel)
      rw [hpl] at i1 i2 i3
      unfold recordLoop
      rw [if_pos hc]
      simp only [hnext, hv, i1, i2, i3]
      refine ⟨?_, trivial, trivial⟩
      simp [expectedVisits, SizeofInotifyEvent]

/-! ## The record loop: the claims -/

theorem expectedVisits_length (rs : List RawRecord) :
    ∀ o, (expectedVisits o rs).length = rs.length := by
  induction rs with
  | nil => intro o; rfl
  | cons r rs ih => intro o; simp [expectedVisits, ih]

/-- An iteration either decodes nothing, or runs the record loop on a read of at
least one header. -/
theorem iteration_cases (b : OpBits) (env : IterEnv) (w : Watcher) :
    ((iteration b env w).visits = [] ∧ (iteration b env w).offset = 0 ∧
      ((iteration b env w).ctl = Ctl.next ∨ (iteration b env w).ctl = Ctl.ret)) ∨
    (16 ≤ env.read.1 ∧
      (iteration b env w).visits = (recordLoop b env env.read.1 env.read.1.toNat w 0).visits ∧
      (iteration b env w).ctl = (recordLoop b env env.read.1 env.read.1.toNat w 0).ctl ∧
      (iteration b env w).offset
        = (recordLoop b env env.read.1 env.read.1.toNat w 0).offset) := by
  have hs : ((SizeofInotifyEvent : Nat) : Int) = 16 := rfl
  unfold iteration
  by_cases h1 : env.closedTop = true
  · left; simp [h1]
  · rw [if_neg h1]
    simp only
    by_cases h2 : env.wait.2 ≠ none
    · left
      rw [if_pos h2]
      cases env.selWait <;> simp
    · rw [if_neg h2]
      by_cases h3 : ¬ env.wait.1 = true
      · left; rw [if_pos h3]; simp
      · rw [if_neg h3]
        by_cases h4 : env.read.2 = some (GoError.errno EINTR)
        · left; rw [if_pos h4]; simp
        · rw [if_neg h4]
          by_cases h5 : env.closedAfterRead = true
          · left; rw [if_pos h5]; simp
          · rw [if_neg h5]
            by_cases h6 : env.read.1 < (SizeofInotifyEvent : Nat)
            · left
              rw [if_pos h6]
              cases env.selShort <;> simp
            · right
              rw [if_neg h6]
              exact ⟨by omega, rfl, rfl, rfl⟩

/-- The iteration bound given to the record loop is never used up: the loop of
every iteration ends by its own condition, by a return or by a crash of the body. -/
theorem iteration_never_out_of_fuel (b : OpBits) (env : IterEnv) (w : Watcher) :
    (iteration b env w).ctl ≠ Ctl.crash Crash.fuel := by
  rcases iteration_cases b env w with ⟨-, -, h | h⟩ | ⟨h16, -, h, -⟩
  · rw [h]; simp
  · rw [h]; simp
  · rw [h]
    exact (recordLoop_bounds b env env.read.1 h16 env.read.1.toNat w 0).2 (by omega)

theorem iteration_visits (b : OpBits) (env : IterEnv) (w : Watcher) (v : Visit)
    (hv : v ∈ (iteration b env w).visits) :
    16 ≤ env.read.1 ∧ v ∈ (recordLoop b env env.read.1 env.read.1.toNat w 0).visits := by
  rcases iteration_cases b env w with ⟨h, -, -⟩ | ⟨h16, h, -, -⟩
  · rw [h] at hv; simp at hv
  · rw [h] at hv; exact ⟨h16, hv⟩

/-- A pass of the loop body over a header that declares a name longer than
`PathMax`, the index `offset + 16` being inside `buf`: unless the worker
returns at the overflow report, the body panics on `bytes[0:nameLen]`, before
the name is read, and the record is not decoded. -/
theorem recordStep_long_name_panics (b : OpBits) (env : IterEnv) (w : Watcher) (o : Nat)
    (ho : o + SizeofInotifyEvent < bufLen) (hlen : PathMax < le32At env.buf (o + 12))
    (hov : (reportOverflow env o (le32At env.buf (o + 4))).2 = false) :
    (recordStep b env w o).visit = none ∧
    (recordStep b env w o).next = .error (Ctl.crash Crash.sliceBounds) := by
  have hb : bufLen = 65536 := by decide
  have hs : SizeofInotifyEvent = 16 := rfl
  have hp : PathMax = 4096 := rfl
  have hname : ∀ name, appendName env o (le32At env.buf (o + 12)) name
      = .error Crash.sliceBounds := by
    intro name
    unfold appendName
    rw [if_pos (by omega), if_neg (by omega), if_pos (by omega)]
  unfold recordStep
  rw [if_neg (by omega)]
  simp only [hov, Bool.false_eq_true, if_false, hname]
  exact ⟨trivial, trivial⟩

/-- A panic of the loop body ends the worker through its deferred calls: for a
read of one header that declares a name of 5000 bytes, the worker waits, reads,
panics with slice bounds out of range, and the deferred calls close the epoll
descriptor and the three channels. -/
theorem readEvents_panic_runs_deferred :
    readEvents OpBits.std [longNameEnv] freshWatcher =
      (freshWatcher,
        [Effect.pollerWait, Effect.read 3, Effect.close 4, Effect.closeEvents,
         Effect.closeErrors, Effect.closeDoneResp],
        WorkerStatus.crashed Crash.sliceBounds) := by
  decide

/-- C10 (amended): every record the loop decodes has its 16-byte header inside
the bytes that were read (`offset + 16 ≤ n`) and a declared name length of at
most `PathMax`, so that the offset does not wrap in 32 bits; its name is what
`TrimRight` leaves of the `nameLen` bytes that follow the header in memory,
wherever they lie: nothing compares the name length with `n`. -/
theorem C10_header_in_bounds (b : OpBits) (env : IterEnv) (w : Watcher) (v : Visit)
    (hv : v ∈ (iteration b env w).visits) :
    (v.offset : Int) + SizeofInotifyEvent ≤ env.read.1 ∧
    v.nameLen ≤ PathMax ∧
    v.offset + (SizeofInotifyEvent + v.nameLen) < 4294967296 ∧
    v.name = trimRightNul (window env.buf (v.offset + SizeofInotifyEvent) v.nameLen) := by
  have hb : bufLen = 65536 := by decide
  have hs : SizeofInotifyEvent = 16 := rfl
  have hp : PathMax = 4096 := rfl
  obtain ⟨h16, hv1⟩ := iteration_visits b env w v hv
  obtain ⟨h1, h2, h3, h4⟩ :=
    (recordLoop_bounds b env env.read.1 h16 env.read.1.toNat w 0).1 v hv1
  refine ⟨h1, h3, ?_, h4⟩
  omega

/-- C10 (counterexample): a read of `n = 16` bytes whose header declares a name
of four bytes. The loop decodes the record; its name bytes are at indices 16
to 19, not below `n`, and with the same 16 bytes read the decoded name follows
the bytes left over after them. -/
theorem C10_counterexample :
    (16 : Int) ≤ overrunEnv.read.1 ∧
    (∃ v ∈ (iteration OpBits.std overrunEnv freshWatcher).visits,
      ¬ ((v.offset : Int) + SizeofInotifyEvent + v.nameLen ≤ overrunEnv.read.1)) ∧
    overrunEnv2.read = overrunEnv.read ∧
    overrunEnv2.buf.take 16 = overrunEnv.buf.take 16 ∧
    (iteration OpBits.std overrunEnv freshWatcher).visits
      = [{ offset := 0, wd := 1, mask := IN_MODIFY, nameLen := 4, name := [97, 98, 99, 100] }] ∧
    (iteration OpBits.std overrunEnv2 freshWatcher).visits
      = [{ offset := 0, wd := 1, mask := IN_MODIFY, nameLen := 4, name := [120, 121, 122, 119] }] := by
  have h1 : (iteration OpBits.std overrunEnv freshWatcher).visits
      = [{ offset := 0, wd := 1, mask := IN_MODIFY, nameLen := 4, name := [97, 98, 99, 100] }] := by
    decide
  refine ⟨by decide, ?_, rfl, by decide, h1, by decide⟩
  rw [h1]
  exact ⟨_, List.mem_singleton.mpr rfl, by decide⟩



/-- C10 (amended) at the record of `overrunEnv`: its header is inside the 16
bytes read, its name is the four bytes behind them. -/
theorem C10_header_in_bounds_witness :
    ({ offset := 0, wd := 1, mask := IN_MODIFY, nameLen := 4, name := [97, 98, 99, 100] } : Visit)
      ∈ (iteration OpBits.std overrunEnv freshWatcher).visits ∧
    ((0 : Nat) : Int) + SizeofInotifyEvent ≤ overrunEnv.read.1 ∧ 4 ≤ PathMax ∧
    0 + (SizeofInotifyEvent + 4) < 4294967296 ∧
    [97, 98, 99, 100] = trimRightNul (window overrunEnv.buf (0 + SizeofInotifyEvent) 4) :=
  ⟨by decide,
    C10_header_in_bounds OpBits.std overrunEnv freshWatcher
      { offset := 0, wd := 1, mask := IN_MODIFY, nameLen := 4, name := [97, 98, 99, 100] }
      (by decide)⟩

/-- C3 (counterexample): two well-formed records are read, their 40 bytes fit
the buffer, and the `select` that delivers the first event finds the shutdown
flag set: `readEvents` returns from inside the loop, which has visited one
record of the two and is left at offset 0, not at `n = 40`. -/
theorem C3_counterexample :
    (∀ r ∈ sampleRecords, r.WellFormed) ∧
    sampleRecords.length = 2 ∧
    sampleEnvShutdown.buf = encodeAll sampleRecords ++ [9, 9, 9] ∧
    sampleEnvShutdown.read.1 = ((encodeAll sampleRecords).length : Int) ∧
    sampleEnvShutdown.read.1 = 40 ∧
    (encodeAll sampleRecords).length ≤ bufLen ∧
    (iteration OpBits.std sampleEnvShutdown freshWatcher).visits
      = [{ offset := 0, wd := 1, mask := IN_MODIFY, nameLen := 8, name := [97, 98] }] ∧
    (iteration OpBits.std sampleEnvShutdown freshWatcher).ctl = Ctl.ret ∧
    (iteration OpBits.std sampleEnvShutdown freshWatcher).offset = 0 := by
  decide

/-- C3 (amended): when the bytes read are the concatenation of `k` well-formed
records that fits the buffer, the iteration reaches the record loop, and no
`select` of the loop takes its `<-w.done` branch (the shutdown flag is not
seen while the records are processed), the record loop visits exactly `k`
records in order; the visit of the i-th reads
its handle, its mask and its name without the NUL padding, at the offset that
is the sum of header size plus name length of the records before it, and the
loop is left at offset `n`. -/
theorem C3_split_wellformed (b : OpBits) (env : IterEnv) (w : Watcher) (rs : List RawRecord)
    (rest : List Nat)
    (hwf : ∀ r ∈ rs, r.WellFormed)
    (hbuf : env.buf = encodeAll rs ++ rest)
    (hn : env.read.1 = ((encodeAll rs).length : Int))
    (hfit : (encodeAll rs).length ≤ bufLen)
    (hTop : env.closedTop = false) (hWait : env.wait = (true, none))
    (hErr : env.read.2 ≠ some (GoError.errno EINTR)) (hAfter : env.closedAfterRead = false)
    (hsel : ∀ o, env.selOverflow o = Sel.sent ∧ env.selEvent o = Sel.sent) :
    (iteration b env w).visits = expectedVisits 0 rs ∧
    (iteration b env w).visits.length = rs.length ∧
    (iteration b env w).offset = (encodeAll rs).length ∧
    (rs ≠ [] → (iteration b env w).ctl = Ctl.next) := by
  have hs : ((SizeofInotifyEvent : Nat) : Int) = 16 := rfl
  have hge := encodeAll_length_ge rs
  suffices h : (iteration b env w).visits = expectedVisits 0 rs ∧
      (iteration b env w).offset = (encodeAll rs).length ∧
      (rs ≠ [] → (iteration b env w).ctl = Ctl.next) by
    refine ⟨h.1, ?_, h.2.1, h.2.2⟩
    rw [h.1, expectedVisits_length]
  cases rs with
  | nil =>
    have h0 : env.read.1 = 0 := by simpa [encodeAll] using hn
    unfold iteration
    simp only [hTop, hWait, hErr, hAfter, h0, Bool.false_eq_true, if_false, ne_eq,
      not_true_eq_false, not_false_eq_true]
    cases env.selShort <;> simp [expectedVisits, encodeAll, SizeofInotifyEvent]
  | cons r rs =>
    have hlen : 16 ≤ (encodeAll (r :: rs)).length := by
      simp only [List.length_cons] at hge; omega
    obtain ⟨l1, l2, l3⟩ := recordLoop_wellformed b env (encodeAll (r :: rs)).length hlen hfit hsel
      (r :: rs) [] rest (encodeAll (r :: rs)).length w hwf (by simpa using hbuf) (by simp)
      (by simp only [List.length_cons] at hge ⊢; omega)
    simp only [List.length_nil] at l1 l2 l3
    have h16 : ¬ env.read.1 < ((SizeofInotifyEvent : Nat) : Int) := by rw [hs, hn]; omega
    unfold iteration
    simp only [hTop, hWait, hErr, hAfter, h16, Bool.false_eq_true, if_false, ne_eq,
      not_true_eq_false, not_false_eq_true, hn, Int.toNat_ofNat]
    exact ⟨l1, l3, fun _ => l2⟩

/-- C3 (amended) at `sampleRecords`. -/
theorem C3_split_wellformed_witness :
    (∀ r ∈ sampleRecords, r.WellFormed) ∧
    sampleEnv.buf = encodeAll sampleRecords ++ [9, 9, 9] ∧
    sampleEnv.read.1 = ((encodeAll sampleRecords).length : Int) ∧
    (encodeAll sampleRecords).length ≤ bufLen ∧
    (iteration OpBits.std sampleEnv freshWatcher).visits
      = [{ offset := 0, wd := 1, mask := IN_MODIFY, nameLen := 8, name := [97, 98] },
         { offset := 24, wd := 2, mask := IN_DELETE_SELF, nameLen := 0, name := [] }] ∧
    (iteration OpBits.std sampleEnv freshWatcher).offset = 40 :=
  ⟨by decide, rfl, by decide, by decide,
    (C3_split_wellformed OpBits.std sampleEnv freshWatcher sampleRecords [9, 9, 9]
      (by decide) rfl (by decide) (by decide) rfl rfl (by decide) rfl
      (fun _ => ⟨rfl, rfl⟩)).1,
    (C3_split_wellformed OpBits.std sampleEnv freshWatcher sampleRecords [9, 9, 9]
      (by decide) rfl (by decide) (by decide) rfl rfl (by decide) rfl
      (fun _ => ⟨rfl, rfl⟩)).2.2.1⟩

/-! ## The record loop when a `select` takes the shutdown branch -/

theorem reportOverflow_cases (env : IterEnv) (o mask : Nat) :
    (reportOverflow env o mask).2 = false ∨ (reportOverflow env o mask).2 = true := by
  cases (reportOverflow env o mask).2 <;> simp

theorem deliver_next_cases (b : OpBits) (env : IterEnv) (w : Watcher) (tr : List Effect)
    (visit : Visit) (name : GoString) :
    (deliver b env w tr visit name).next
      = .ok ((visit.offset + (SizeofInotifyEvent + visit.nameLen)) % 4294967296) ∨
    (deliver b env w tr visit name).next = .error Ctl.ret := by
  unfold deliver
  simp only
  split_ifs
  all_goals first
    | (left; rfl)
    | (split <;> first | (left; rfl) | (right; rfl))

/-- The loop body on a well-formed record, whatever the `select`s choose: it
either returns before the name is read, or decodes the record and then
advances or returns. -/
theorem recordStep_wellformed_any (b : OpBits) (env : IterEnv) (w : Watcher)
    (pre rest : List Nat) (r : RawRecord) (hwf : r.WellFormed)
    (hbuf : env.buf = pre ++ r.encode ++ rest) (hfit : pre.length + 16 + r.len ≤ bufLen) :
    ((recordStep b env w pre.length).visit = none ∧
      (recordStep b env w pre.length).next = .error Ctl.ret) ∨
    ((recordStep b env w pre.length).visit
        = some { offset := pre.length, wd := r.wd, mask := r.mask, nameLen := r.len,
                 name := r.name } ∧
      ((recordStep b env w pre.length).next = .ok (pre.length + (16 + r.len)) ∨
        (recordStep b env w pre.length).next = .error Ctl.ret)) := by
  have hwf0 := hwf
  obtain ⟨hw1, hw2, hm, hc, hname, hlen⟩ := hwf
  have hb : bufLen = 65536 := by decide
  have hs : SizeofInotifyEvent = 16 := rfl
  have hp : PathMax = 4096 := rfl
  obtain ⟨eWd, eMask, eLen⟩ := header_wellformed env pre rest r hwf0 hbuf
  unfold recordStep
  rw [if_neg (by omega)]
  simp only [eWd, eMask, eLen]
  rcases reportOverflow_cases env pre.length r.mask with hov | hov
  · right
    simp only [hov, Bool.false_eq_true, if_false]
    obtain ⟨nm, hnm⟩ := appendName_wellformed env pre rest r
      (resolveHandle w (toInt32 (toUint32 r.wd)) r.mask).2 hwf0 hbuf hfit
    rw [hnm]
    simp only
    rw [deliver_visit, toInt32_toUint32 r.wd hw1 hw2]
    refine ⟨rfl, ?_⟩
    rcases deliver_next_cases b env (resolveHandle w r.wd r.mask).1
      (reportOverflow env pre.length r.mask).1
      { offset := pre.length, wd := r.wd, mask := r.mask, nameLen := r.len, name := r.name }
      nm with h | h
    · left
      rw [h]
      simp only [hs]
      congr 1
      omega
    · right; exact h
  · left
    simp only [hov, if_true]
    exact ⟨trivial, trivial⟩

/-- The record loop on well-formed records, whatever the `select`s choose: the
visits are an initial part of the records, in order; the loop either visits
all of them and is left at offset `n`, or `readEvents` returns. -/
theorem recordLoop_wellformed_any (b : OpBits) (env : IterEnv) (n : Nat) (hn : 16 ≤ n)
    (hfit : n ≤ bufLen) :
    ∀ (rs : List RawRecord) (pre rest : List Nat) (fuel : Nat) (w : Watcher),
      (∀ r ∈ rs, r.WellFormed) → env.buf = pre ++ encodeAll rs ++ rest →
      n = pre.length + (encodeAll rs).length → rs.length ≤ fuel →
      (recordLoop b env n fuel w pre.length).visits <+: expectedVisits pre.length rs ∧
      (((recordLoop b env n fuel w pre.length).ctl = Ctl.next ∧
          (recordLoop b env n fuel w pre.length).visits = expectedVisits pre.length rs ∧
          (recordLoop b env n fuel w pre.length).offset = n) ∨
        (recordLoop b env n fuel w pre.length).ctl = Ctl.ret) := by
  have hu := toUint32_sub_eq n hn hfit
  intro rs
  induction rs with
  | nil =>
    intro pre rest fuel w _ _ hlen _
    have hpl : pre.length = n := by simp [encodeAll] at hlen; omega
    have hc : ¬ pre.length ≤ toUint32 ((n : Int) - (SizeofInotifyEvent : Nat)) := by
      rw [hu]; omega
    cases fuel with
    | zero =>
      unfold recordLoop
      rw [if_neg hc]
      exact ⟨List.prefix_refl _, Or.inl ⟨rfl, rfl, hpl⟩⟩
    | succ fuel =>
      unfold recordLoop
      rw [if_neg hc]
      exact ⟨List.prefix_refl _, Or.inl ⟨rfl, rfl, hpl⟩⟩
  | cons r rs ih =>
    intro pre rest fuel w hwf hbuf hlen hfuel
    rw [encodeAll_cons] at hbuf hlen
    rw [List.length_append, encode_length] at hlen
    have hc : pre.length ≤ toUint32 ((n : Int) - (SizeofInotifyEvent : Nat)) := by
      rw [hu]; omega
    cases fuel with
    | zero => simp at hfuel
    | succ fuel =>
      have hbuf1 : env.buf = pre ++ r.encode ++ (encodeAll rs ++ rest) := by
        rw [hbuf]; simp [List.append_assoc]
      have hbuf2 : env.buf = (pre ++ r.encode) ++ encodeAll rs ++ rest := by
        rw [hbuf]; simp [List.append_assoc]
      have hpl : (pre ++ r.encode).length = pre.length + (16 + r.len) := by
        rw [List.length_append, encode_length]
      have hexp : expectedVisits pre.length (r :: rs)
          = { offset := pre.length, wd := r.wd, mask := r.mask, nameLen := r.len,
              name := r.name } :: expectedVisits (pre.length + (16 + r.len)) rs := by
        simp [expectedVisits, SizeofInotifyEvent]
      obtain ⟨i1, i2⟩ := ih (pre ++ r.encode) rest fuel (recordStep b env w pre.length).w
        (fun r1 h1 => hwf r1 (List.mem_cons_of_mem _ h1)) hbuf2 (by rw [hpl]; omega)
        (by simpa using hfuel)
      rw [hpl] at i1 i2
      rw [hexp]
      unfold recordLoop
      rw [if_pos hc]
      rcases recordStep_wellformed_any b env w pre (encodeAll rs ++ rest) r
        (hwf r (List.mem_cons_self _ _)) hbuf1 (by omega) with ⟨hv, hnext⟩ | ⟨hv, hnext | hnext⟩
      · simp only [hnext, hv]
        exact ⟨List.nil_prefix, Or.inr trivial⟩
      · simp only [hnext, hv, Option.toList_some, List.singleton_append]
        refine ⟨(List.prefix_cons_inj _).mpr i1, ?_⟩
        rcases i2 with ⟨j1, j2, j3⟩ | j
        · exact Or.inl ⟨j1, by rw [j2], j3⟩
        · exact Or.inr j
      · simp only [hnext, hv, Option.toList_some]
        refine ⟨?_, Or.inr trivial⟩
        exact ⟨expectedVisits (pre.length + (16 + r.len)) rs, rfl⟩

/-- An iteration that reads well-formed records, whatever the `select`s choose:
the records visited are an initial part of the records read, in order, and the
iteration ends with all of them visited or with the return of `readEvents`. -/
theorem iteration_wellformed_prefix (b : OpBits) (env : IterEnv) (w : Watcher)
    (rs : List RawRecord) (rest : List Nat)
    (hwf : ∀ r ∈ rs, r.WellFormed)
    (hbuf : env.buf = encodeAll rs ++ rest)
    (hn : env.read.1 = ((encodeAll rs).length : Int))
    (hfit : (encodeAll rs).length ≤ bufLen) :
    (iteration b env w).visits <+: expectedVisits 0 rs ∧
    ((iteration b env w).ctl = Ctl.next ∨ (iteration b env w).ctl = Ctl.ret) := by
  have hge := encodeAll_length_ge rs
  rcases iteration_cases b env w with ⟨h1, -, h3⟩ | ⟨h16, h1, h2, -⟩
  · rw [h1]
    exact ⟨List.nil_prefix, h3⟩
  · rw [h1, h2, hn, Int.toNat_ofNat]
    rw [hn] at h16
    obtain ⟨l1, l2⟩ := recordLoop_wellformed_any b env (encodeAll rs).length (by omega) hfit
      rs [] rest (encodeAll rs).length w hwf (by simpa using hbuf) (by simp) (by omega)
    simp only [List.length_nil] at l1 l2
    refine ⟨l1, ?_⟩
    rcases l2 with ⟨j, -, -⟩ | j
    · exact Or.inl j
    · exact Or.inr j


end Fsnotify
